import Mathlib

/-!
Verification of the VueSeq adaptive capture-and-encode orchestration engine.

This file gives a shallow embedding, in Lean 4, of the core of the VueSeq
video renderer:

* the GPU capability detector (`src/renderer/gpu.js`): renderer-string
  classification, the probe cascade over the platform backend list, and the
  in-memory / on-disk TTL cache;
* the scatter-gather parallel capture pipeline (`renderToMp4Parallel`):
  the deterministic frame partition, the reassembly buffer with its
  contiguous-prefix batch drain (`processEncodeQueue`), the worker loop with
  its flow control, and the final drain loop — modelled as a small-step
  state machine whose atomic steps are the code segments between `await`
  suspension points, driven by an arbitrary schedule of task activations;
* the resource-lifecycle skeleton of `renderToMp4Parallel` (server
  creation, browser launch, the `try`/`finally` teardown block).

Theorems about these definitions settle the frozen claims about the spec.
-/

namespace VueSeq

/-! ## Renderer-string classification (gpu.js, testGPUBackend)

`rendererLower.includes(sig)` is JavaScript case-sensitive substring search
on the lowercased renderer string; `strIncludes` embeds it. -/

/-- Substring test: does `pat` occur contiguously inside `s`?
Embeds JavaScript `String.prototype.includes`. -/
def strIncludes (s pat : String) : Bool :=
  s.toList.tails.any (fun t => pat.toList.isPrefixOf t)

/-- Character-wise lowercasing; embeds `String.prototype.toLowerCase()`
(the renderer strings involved are ASCII). -/
def toLowerStr (s : String) : String :=
  ⟨s.data.map Char.toLower⟩

/-- Embeds the `isSoftware` test of `testGPUBackend` (gpu.js lines 226-231):
the lowercased renderer string is checked against exactly four
software-renderer signatures. -/
def rendererIsSoftware (renderer : String) : Bool :=
  let rendererLower := toLowerStr renderer
  strIncludes rendererLower "swiftshader" ||
  strIncludes rendererLower "llvmpipe" ||
  strIncludes rendererLower "software" ||
  strIncludes rendererLower "microsoft basic render"

/-- Embeds `isHardwareAccelerated: !isSoftware` (gpu.js line 237). -/
def isHardwareAccelerated (renderer : String) : Bool :=
  !(rendererIsSoftware renderer)

/-- Modelled from the spec for comparison with the code: the spec's claimed
software-signature set, which additionally treats a renderer string
containing both "mesa" and "llvm" as a software renderer. -/
def specSoftwareSignature (renderer : String) : Bool :=
  let rendererLower := toLowerStr renderer
  strIncludes rendererLower "swiftshader" ||
  strIncludes rendererLower "llvmpipe" ||
  strIncludes rendererLower "software" ||
  strIncludes rendererLower "microsoft basic render" ||
  (strIncludes rendererLower "mesa" && strIncludes rendererLower "llvm")

lemma strIncludes_iff_infix (s pat : String) :
    strIncludes s pat = true ↔ pat.toList <:+: s.toList := by
  unfold strIncludes
  rw [List.any_eq_true]
  constructor
  · rintro ⟨t, ht, hp⟩
    rw [List.mem_tails _ _] at ht
    rw [List.isPrefixOf_iff_prefix] at hp
    exact List.infix_iff_prefix_suffix.mpr ⟨t, hp, ht⟩
  · intro h
    obtain ⟨t, hp, ht⟩ := List.infix_iff_prefix_suffix.mp h
    exact ⟨t, (List.mem_tails _ _).mpr ht, List.isPrefixOf_iff_prefix.mpr hp⟩

/-! ## Frame scheduler partition (part_003, lines 223-226)

```js
const frameAssignments = Array.from({ length: numWorkers }, () => [])
for (let i = 0; i < totalFrames; i++) {
    frameAssignments[i % numWorkers].push(i)
}
```
-/

/-- One step of the assignment loop: push frame `i` onto the list at
position `k` (JavaScript `frameAssignments[k].push(i)`). -/
def pushAt (ls : List (List ℕ)) (k i : ℕ) : List (List ℕ) :=
  ls.set k (ls.getD k [] ++ [i])

/-- Embeds `frameAssignments`: `numWorkers` initially-empty lists, then each
frame index `i` in `[0, totalFrames)` is pushed onto list `i % numWorkers`. -/
def frameAssignments (totalFrames numWorkers : ℕ) : List (List ℕ) :=
  (List.range totalFrames).foldl (fun acc i => pushAt acc (i % numWorkers) i)
    (List.replicate numWorkers [])

lemma getD_map_range (f : ℕ → List ℕ) (W k : ℕ) (hk : k < W) :
    ((List.range W).map f).getD k [] = f k := by
  rw [List.getD_eq_getElem?_getD]
  rw [List.getElem?_map, List.getElem?_range hk]
  rfl

/-- Closed form of the assignment loop: worker `w` receives exactly the
frames `i < totalFrames` with `i % numWorkers = w`, in increasing order. -/
lemma frameAssignments_eq (total W : ℕ) :
    frameAssignments total W =
      (List.range W).map (fun w => (List.range total).filter (fun i => i % W == w)) := by
  induction total with
  | zero =>
      simp only [frameAssignments, List.range_zero, List.foldl_nil, List.filter_nil]
      rw [List.map_const', List.length_range]
  | succ n ih =>
      unfold frameAssignments
      rw [List.range_succ, List.foldl_append, List.foldl_cons, List.foldl_nil]
      rw [show (List.range n).foldl (fun acc i => pushAt acc (i % W) i)
            (List.replicate W []) = frameAssignments n W from rfl, ih]
      rcases Nat.eq_zero_or_pos W with hW | hW
      · subst hW
        simp [pushAt]
      · have hlt : n % W < W := Nat.mod_lt _ hW
        unfold pushAt
        rw [getD_map_range _ _ _ hlt]
        apply List.ext_getElem
        · simp
        · intro k hk₁ hk₂
          simp only [List.length_set, List.length_map, List.length_range] at hk₁
          rw [List.getElem_set]
          simp only [List.getElem_map, List.getElem_range]
          rw [List.filter_append]
          by_cases hkn : n % W = k
          · subst hkn
            simp
          · rw [if_neg hkn]
            have hbe : ((n % W : ℕ) == k) = false := by simp [hkn]
            simp [hbe]

/-! ## Resource lifecycle of renderToMp4Parallel (part_003, lines 124-148 and 323-327)

The duration auto-detection (line 126-129) can fail before the server
exists; `createVideoServer` (line 132) then creates the serving endpoint;
`chromium.launch` (line 147) can fail after the server exists but before
the `try` block; the `try`/`finally` (lines 149/323-326) guarantees
`browser.close()` and `cleanupServer()` for every exit of the body. -/

/-- Failure-injection environment for one run of `renderToMp4Parallel`:
whether duration detection succeeds, whether the browser launch succeeds,
and the outcome of the whole `try` body (setup, capture, encode, finalize). -/
structure RenderRun where
  durationOk : Bool
  launchOk : Bool
  bodyResult : Except String Unit

/-- Observable outcome of one run: the returned value or surfaced error,
and which resources were created and torn down. -/
structure RenderOutcome where
  result : Except String String
  serverStarted : Bool
  serverCleaned : Bool
  browserClosed : Bool
deriving Repr

/-- Embeds the control-flow skeleton of `renderToMp4Parallel`: statement
order `duration check; createVideoServer; chromium.launch; try body
finally (browser.close; cleanupServer)`. -/
def renderLifecycle (r : RenderRun) (output : String) : RenderOutcome :=
  if r.durationOk = false then
    { result := .error "Could not auto-detect duration."
      serverStarted := false, serverCleaned := false, browserClosed := false }
  else if r.launchOk = false then
    { result := .error "browser launch failed"
      serverStarted := true, serverCleaned := false, browserClosed := false }
  else
    match r.bodyResult with
    | .ok _ =>
        { result := .ok output
          serverStarted := true, serverCleaned := true, browserClosed := true }
    | .error e =>
        { result := .error e
          serverStarted := true, serverCleaned := true, browserClosed := true }

/-! ## GPU capability detector (gpu.js)

The detector's effectful ingredients are made explicit parameters: the
process-scoped in-memory cache `cachedConfig` and the on-disk cache file
become a `DetectorState`; `Date.now()` becomes `now`; each
`testGPUBackend` launch consumes the next entry of a probe-outcome oracle
list (an exhausted oracle behaves like a launch failure, which the code
catches). -/

/-- One entry of `GPU_BACKENDS` (gpu.js lines 19-136). -/
structure GPUBackend where
  name : String
  label : String
  channel : Option String
  headless : Bool
  args : List String
deriving DecidableEq, Repr

/-- The `GPU_BACKENDS.linux` candidate list, in priority order. -/
def linuxBackends : List GPUBackend :=
  [ { name := "vulkan", label := "Vulkan (NVIDIA/AMD)", channel := some "chromium",
      headless := true,
      args := ["--no-sandbox", "--disable-background-timer-throttling",
               "--disable-backgrounding-occluded-windows",
               "--disable-renderer-backgrounding",
               "--disable-ipc-flooding-protection", "--use-angle=vulkan",
               "--enable-features=Vulkan", "--disable-vulkan-surface",
               "--enable-unsafe-webgpu", "--ignore-gpu-blocklist"] },
    { name := "egl", label := "EGL (Intel/Mesa)", channel := some "chromium",
      headless := true,
      args := ["--no-sandbox", "--disable-background-timer-throttling",
               "--disable-backgrounding-occluded-windows",
               "--disable-renderer-backgrounding", "--use-gl=egl",
               "--ignore-gpu-blocklist"] },
    { name := "desktop", label := "Desktop OpenGL", channel := some "chromium",
      headless := true,
      args := ["--no-sandbox", "--disable-background-timer-throttling",
               "--disable-backgrounding-occluded-windows",
               "--disable-renderer-backgrounding", "--use-gl=desktop",
               "--ignore-gpu-blocklist"] },
    { name := "angle-gl", label := "ANGLE OpenGL ES", channel := some "chromium",
      headless := true,
      args := ["--no-sandbox", "--disable-background-timer-throttling",
               "--disable-backgrounding-occluded-windows",
               "--disable-renderer-backgrounding", "--use-angle=gl",
               "--ignore-gpu-blocklist"] } ]

/-- `SOFTWARE_FALLBACK` (gpu.js lines 139-145). -/
def SOFTWARE_FALLBACK : GPUBackend :=
  { name := "software", label := "Software (SwiftShader)", channel := none,
    headless := true, args := ["--no-sandbox"] }

/-- `CACHE_TTL = 24 * 60 * 60 * 1000` milliseconds (gpu.js line 152). -/
def CACHE_TTL : ℕ := 24 * 60 * 60 * 1000

/-- The profile object built by `detectBestGPUConfig` and stored in the
caches. -/
structure GPUConfig where
  backend : String
  label : String
  channel : Option String
  headless : Bool
  args : List String
  isHardwareAccelerated : Bool
  renderer : Option String
  vendor : Option String
deriving DecidableEq, Repr

/-- External observation of one `testGPUBackend` probe: the launch threw
(caught, gpu.js line 246), WebGL was unavailable (`supported: false`),
WebGL worked but `WEBGL_debug_renderer_info` was missing, or WebGL reported
renderer/vendor strings. -/
inductive ProbeOutcome where
  | launchFail
  | noWebGL
  | noDebugInfo
  | webgl (renderer vendor : String)
deriving DecidableEq, Repr

/-- The `isHardwareAccelerated` field of a probe result as consumed
(truthily) by the detector loop: only a successful probe with debug info
and a non-software renderer string counts (gpu.js lines 233-241, 246-248). -/
def probeIsHW : ProbeOutcome → Bool
  | .webgl renderer _ => isHardwareAccelerated renderer
  | _ => false

/-- The renderer string a probe reports, if any. -/
def probeRenderer : ProbeOutcome → Option String
  | .webgl renderer _ => some renderer
  | _ => none

/-- The vendor string a probe reports, if any. -/
def probeVendor : ProbeOutcome → Option String
  | .webgl _ vendor => some vendor
  | _ => none

/-- Cache state: the module-level `cachedConfig` variable and the contents
of the JSON cache file `{timestamp, config}` (absent or corrupt = `none`). -/
structure DetectorState where
  memCache : Option GPUConfig
  diskCache : Option (ℕ × GPUConfig)
deriving DecidableEq, Repr

/-- Embeds `loadCachedConfig` (gpu.js lines 159-172): return the on-disk
config only while `now - timestamp < CACHE_TTL`. -/
def loadCachedConfig (disk : Option (ℕ × GPUConfig)) (now : ℕ) : Option GPUConfig :=
  match disk with
  | some (t, c) => if now - t < CACHE_TTL then some c else none
  | none => none

/-- Draw the next probe outcome from the oracle; an exhausted oracle
behaves as a launch failure (which `testGPUBackend` catches). -/
def takeOutcome : List ProbeOutcome → ProbeOutcome × List ProbeOutcome
  | [] => (.launchFail, [])
  | o :: os => (o, os)

/-- Build the config persisted on a hardware-accelerated success
(gpu.js lines 283-292 and 305-314). -/
def mkHWConfig (b : GPUBackend) (o : ProbeOutcome) : GPUConfig :=
  { backend := b.name, label := b.label, channel := b.channel,
    headless := b.headless, args := b.args, isHardwareAccelerated := true,
    renderer := probeRenderer o, vendor := probeVendor o }

/-- The universal software fallback profile (gpu.js lines 323-332). -/
def softwareFallbackConfig : GPUConfig :=
  { backend := SOFTWARE_FALLBACK.name, label := SOFTWARE_FALLBACK.label,
    channel := SOFTWARE_FALLBACK.channel, headless := SOFTWARE_FALLBACK.headless,
    args := SOFTWARE_FALLBACK.args, isHardwareAccelerated := false,
    renderer := some "SwiftShader", vendor := some "Google" }

/-- Result of a detector call: the returned profile, the cache state after
the call, and how many probe browsers were launched. -/
structure DetectResult where
  config : GPUConfig
  state : DetectorState
  probesLaunched : ℕ
deriving DecidableEq, Repr

/-- The `for (const backend of backends)` loop of `detectBestGPUConfig`
(gpu.js lines 301-320) followed by the software fallback (lines 322-336):
each candidate is probed in order; the first hardware-accelerated result
wins and is persisted to both caches; if none wins the software fallback
profile is persisted and returned. `count` probes were already launched. -/
def tryBackendLoop (now : ℕ) (count : ℕ) :
    List GPUBackend → List ProbeOutcome → DetectResult
  | [], _ =>
      { config := softwareFallbackConfig
        state := { memCache := some softwareFallbackConfig
                   diskCache := some (now, softwareFallbackConfig) }
        probesLaunched := count }
  | b :: rest, probes =>
      let o := takeOutcome probes
      if probeIsHW o.1 then
        { config := mkHWConfig b o.1
          state := { memCache := some (mkHWConfig b o.1)
                     diskCache := some (now, mkHWConfig b o.1) }
          probesLaunched := count + 1 }
      else
        tryBackendLoop now (count + 1) rest o.2

/-- Embeds `detectBestGPUConfig` (gpu.js lines 258-337): in-memory cache
check (no TTL test), then on-disk cache check (TTL test), then the
preferred backend if named, then the priority loop, then the fallback. -/
def detectBestGPUConfig (forceDetect : Bool) (preferBackend : Option String)
    (backends : List GPUBackend) (st : DetectorState) (now : ℕ)
    (probes : List ProbeOutcome) : DetectResult :=
  if h : forceDetect = false ∧ st.memCache.isSome then
    { config := st.memCache.get h.2, state := st, probesLaunched := 0 }
  else
    match forceDetect, loadCachedConfig st.diskCache now with
    | false, some cached =>
        { config := cached, state := { st with memCache := some cached },
          probesLaunched := 0 }
    | _, _ =>
        match preferBackend with
        | some name =>
            match backends.find? (fun b => b.name == name) with
            | some preferred =>
                let o := takeOutcome probes
                if probeIsHW o.1 then
                  { config := mkHWConfig preferred o.1
                    state := { memCache := some (mkHWConfig preferred o.1)
                               diskCache := some (now, mkHWConfig preferred o.1) }
                    probesLaunched := 1 }
                else
                  tryBackendLoop now 1 backends o.2
            | none => tryBackendLoop now 0 backends probes
        | none => tryBackendLoop now 0 backends probes

/-! ## Detector lemmas -/

lemma takeOutcome_all_fail {probes : List ProbeOutcome}
    (h : ∀ o ∈ probes, probeIsHW o = false) :
    probeIsHW (takeOutcome probes).1 = false ∧
      ∀ o ∈ (takeOutcome probes).2, probeIsHW o = false := by
  cases probes with
  | nil => exact ⟨rfl, by intro o ho; cases ho⟩
  | cons o os =>
      exact ⟨h o (List.mem_cons_self _ _), fun o' ho' => h o' (List.mem_cons_of_mem _ ho')⟩

lemma tryBackendLoop_all_fail (now count : ℕ) (bs : List GPUBackend)
    (probes : List ProbeOutcome) (h : ∀ o ∈ probes, probeIsHW o = false) :
    tryBackendLoop now count bs probes =
      { config := softwareFallbackConfig
        state := { memCache := some softwareFallbackConfig
                   diskCache := some (now, softwareFallbackConfig) }
        probesLaunched := count + bs.length } := by
  induction bs generalizing count probes with
  | nil => simp [tryBackendLoop]
  | cons b rest ih =>
      obtain ⟨h1, h2⟩ := takeOutcome_all_fail h
      unfold tryBackendLoop
      simp only [h1, Bool.false_eq_true, if_false]
      rw [ih (count + 1) _ h2]
      simp only [List.length_cons]
      congr 1
      omega

lemma tryBackendLoop_state (now count : ℕ) (bs : List GPUBackend)
    (probes : List ProbeOutcome) :
    (tryBackendLoop now count bs probes).state =
      { memCache := some (tryBackendLoop now count bs probes).config
        diskCache := some (now, (tryBackendLoop now count bs probes).config) } := by
  induction bs generalizing count probes with
  | nil => rfl
  | cons b rest ih =>
      unfold tryBackendLoop
      by_cases h : probeIsHW (takeOutcome probes).1 = true
      · simp [h]
      · rw [Bool.not_eq_true] at h
        simp only [h, Bool.false_eq_true, if_false]
        exact ih _ _

lemma tryBackendLoop_count (now count : ℕ) (bs : List GPUBackend)
    (probes : List ProbeOutcome) (hb : bs ≠ []) :
    count + 1 ≤ (tryBackendLoop now count bs probes).probesLaunched := by
  induction bs generalizing count probes with
  | nil => exact absurd rfl hb
  | cons b rest ih =>
      unfold tryBackendLoop
      by_cases h : probeIsHW (takeOutcome probes).1 = true
      · simp [h]
      · rw [Bool.not_eq_true] at h
        simp only [h, Bool.false_eq_true, if_false]
        rcases rest with _ | ⟨r, rs⟩
        · simp [tryBackendLoop]
        · have := ih (count + 1) ((takeOutcome probes).2) (by simp)
          omega

lemma detect_memCache_hit (prefer : Option String) (backends : List GPUBackend)
    (st : DetectorState) (now : ℕ) (probes : List ProbeOutcome) (c : GPUConfig)
    (hm : st.memCache = some c) :
    detectBestGPUConfig false prefer backends st now probes =
      { config := c, state := st, probesLaunched := 0 } := by
  unfold detectBestGPUConfig
  rw [dif_pos ⟨rfl, by rw [hm]; rfl⟩]
  congr
  rw [Option.get_of_mem _ hm]

lemma detect_probe_phase (backends : List GPUBackend) (st : DetectorState)
    (now : ℕ) (probes : List ProbeOutcome)
    (hm : st.memCache = none) (hd : loadCachedConfig st.diskCache now = none) :
    detectBestGPUConfig false none backends st now probes =
      tryBackendLoop now 0 backends probes := by
  unfold detectBestGPUConfig
  rw [dif_neg (by rw [hm]; rintro ⟨-, h⟩; exact (Bool.false_ne_true h))]
  rw [hd]

lemma detect_diskCache_hit (prefer : Option String) (backends : List GPUBackend)
    (st : DetectorState) (now : ℕ) (probes : List ProbeOutcome) (c : GPUConfig)
    (hm : st.memCache = none) (hd : loadCachedConfig st.diskCache now = some c) :
    detectBestGPUConfig false prefer backends st now probes =
      { config := c, state := { st with memCache := some c },
        probesLaunched := 0 } := by
  unfold detectBestGPUConfig
  rw [dif_neg (by rw [hm]; rintro ⟨-, h⟩; exact (Bool.false_ne_true h))]
  rw [hd]

/-! ## Claim C4: hardware/software classification of the renderer string -/

/-- C4, counterexample: the claim's signature set includes "mesa"+"llvm"
combined, but the code checks only the four plain signatures, so the
renderer string "Mesa/LLVM" is classified hardware-accelerated although
the claimed signature set matches it. The claimed equivalence is false. -/
theorem c4_mesa_llvm_counterexample :
    ¬ (∀ renderer : String,
        isHardwareAccelerated renderer = true ↔
          specSoftwareSignature renderer = false) := by
  intro h
  exact absurd ((h "Mesa/LLVM").mp (by decide)) (by decide)

/-- C4, amended: the detector classifies a probe that reports a renderer
string as hardware-accelerated if and only if the lowercased renderer
string contains none of the four software signatures "swiftshader",
"llvmpipe", "software", "microsoft basic render" (there is no
"mesa"+"llvm" rule in the code). -/
theorem c4_software_signature_classification (renderer : String) :
    isHardwareAccelerated renderer = true ↔
      ¬ ("swiftshader".toList <:+: (toLowerStr renderer).toList ∨
         "llvmpipe".toList <:+: (toLowerStr renderer).toList ∨
         "software".toList <:+: (toLowerStr renderer).toList ∨
         "microsoft basic render".toList <:+: (toLowerStr renderer).toList) := by
  unfold isHardwareAccelerated rendererIsSoftware
  simp only [← strIncludes_iff_infix]
  simp only [Bool.not_eq_true', Bool.or_eq_false_iff, not_or, Bool.not_eq_true]
  tauto

/-! ## Claim C7: detector cache TTL behavior -/

/-- C7, counterexample: after a first call persists a hardware profile at
time 0, a second call in the same process at time `CACHE_TTL` (the TTL has
exactly expired, so `now - timestamp < CACHE_TTL` fails) still returns the
identical stale profile and launches zero probes, because the in-memory
cache check has no TTL test. The claim says such a call re-probes. -/
theorem c7_stale_memory_cache_counterexample :
    (¬ (CACHE_TTL - 0 < CACHE_TTL)) ∧
    (detectBestGPUConfig false none linuxBackends
        (detectBestGPUConfig false none linuxBackends ⟨none, none⟩ 0
          [.webgl "NVIDIA GeForce RTX 3080/PCIe/SSE2" "NVIDIA Corporation"]).state
        CACHE_TTL []).probesLaunched = 0 ∧
    (detectBestGPUConfig false none linuxBackends
        (detectBestGPUConfig false none linuxBackends ⟨none, none⟩ 0
          [.webgl "NVIDIA GeForce RTX 3080/PCIe/SSE2" "NVIDIA Corporation"]).state
        CACHE_TTL []).config =
      (detectBestGPUConfig false none linuxBackends ⟨none, none⟩ 0
          [.webgl "NVIDIA GeForce RTX 3080/PCIe/SSE2" "NVIDIA Corporation"]).config := by
  refine ⟨by decide, ?_, ?_⟩ <;> decide

/-- C7, amended: after a first detector call (fresh caches) persists a
profile at time `now1`, (a) a second call without `forceDetect` in the
same process returns the identical profile with no probe launched,
regardless of elapsed time — the in-memory cache check has no TTL test;
(b) with the in-memory cache gone (a fresh process), a call within the
TTL returns the persisted on-disk profile without launching any probe;
(c) a fresh-process call after TTL expiry re-probes the candidates
(launches at least one probe) instead of using the disk profile. -/
theorem c7_cache_ttl_behavior (backends : List GPUBackend)
    (probes1 : List ProbeOutcome) (now1 : ℕ) (hb : backends ≠ []) :
    (∀ (now2 : ℕ) (probes2 : List ProbeOutcome),
      detectBestGPUConfig false none backends
          (detectBestGPUConfig false none backends ⟨none, none⟩ now1 probes1).state
          now2 probes2 =
        { config :=
            (detectBestGPUConfig false none backends ⟨none, none⟩ now1 probes1).config
          state :=
            (detectBestGPUConfig false none backends ⟨none, none⟩ now1 probes1).state
          probesLaunched := 0 }) ∧
    (∀ (now2 : ℕ) (probes2 : List ProbeOutcome), now2 - now1 < CACHE_TTL →
      detectBestGPUConfig false none backends
          ⟨none, (detectBestGPUConfig false none backends
                    ⟨none, none⟩ now1 probes1).state.diskCache⟩
          now2 probes2 =
        { config :=
            (detectBestGPUConfig false none backends ⟨none, none⟩ now1 probes1).config
          state :=
            { memCache := some
                (detectBestGPUConfig false none backends ⟨none, none⟩ now1 probes1).config
              diskCache :=
                (detectBestGPUConfig false none backends
                  ⟨none, none⟩ now1 probes1).state.diskCache }
          probesLaunched := 0 }) ∧
    (∀ (now2 : ℕ) (probes2 : List ProbeOutcome), CACHE_TTL ≤ now2 - now1 →
      1 ≤ (detectBestGPUConfig false none backends
            ⟨none, (detectBestGPUConfig false none backends
                      ⟨none, none⟩ now1 probes1).state.diskCache⟩
            now2 probes2).probesLaunched) := by
  have hfirst : detectBestGPUConfig false none backends ⟨none, none⟩ now1 probes1 =
      tryBackendLoop now1 0 backends probes1 :=
    detect_probe_phase _ _ _ _ rfl rfl
  have hstate := tryBackendLoop_state now1 0 backends probes1
  refine ⟨?_, ?_, ?_⟩
  · intro now2 probes2
    rw [hfirst, hstate]
    exact detect_memCache_hit _ _ _ _ _ _ rfl
  · intro now2 probes2 httl
    rw [hfirst, hstate]
    have hhit : loadCachedConfig
        (some (now1, (tryBackendLoop now1 0 backends probes1).config)) now2 =
        some (tryBackendLoop now1 0 backends probes1).config := by
      simp only [loadCachedConfig]
      rw [if_pos httl]
    exact detect_diskCache_hit _ _ _ _ _ _ rfl hhit
  · intro now2 probes2 httl
    rw [hfirst, hstate]
    have hexp : loadCachedConfig
        (some (now1, (tryBackendLoop now1 0 backends probes1).config)) now2 = none := by
      simp only [loadCachedConfig]
      rw [if_neg (by omega)]
    rw [detect_probe_phase _ _ _ _ rfl hexp]
    exact tryBackendLoop_count _ _ _ _ hb

/-- C7 witness: Linux backend list, hardware success persisted at time 0;
a same-process call at time `CACHE_TTL` (disk entry expired) still yields
the identical profile with zero probes; a fresh-process call at time 0
(within TTL) yields the persisted profile with zero probes; a
fresh-process call at time `CACHE_TTL` launches a probe. -/
theorem c7_cache_ttl_behavior_witness :
    (linuxBackends ≠ [] ∧ (0 : ℕ) - 0 < CACHE_TTL ∧ CACHE_TTL ≤ CACHE_TTL - 0) ∧
    (detectBestGPUConfig false none linuxBackends
        (detectBestGPUConfig false none linuxBackends ⟨none, none⟩ 0
          [.webgl "NVIDIA GeForce RTX 3080/PCIe/SSE2" "NVIDIA Corporation"]).state
        CACHE_TTL [] =
      { config := (detectBestGPUConfig false none linuxBackends ⟨none, none⟩ 0
          [.webgl "NVIDIA GeForce RTX 3080/PCIe/SSE2" "NVIDIA Corporation"]).config
        state := (detectBestGPUConfig false none linuxBackends ⟨none, none⟩ 0
          [.webgl "NVIDIA GeForce RTX 3080/PCIe/SSE2" "NVIDIA Corporation"]).state
        probesLaunched := 0 }) ∧
    (detectBestGPUConfig false none linuxBackends
        ⟨none, (detectBestGPUConfig false none linuxBackends ⟨none, none⟩ 0
          [.webgl "NVIDIA GeForce RTX 3080/PCIe/SSE2" "NVIDIA Corporation"]).state.diskCache⟩
        0 [] =
      { config := (detectBestGPUConfig false none linuxBackends ⟨none, none⟩ 0
          [.webgl "NVIDIA GeForce RTX 3080/PCIe/SSE2" "NVIDIA Corporation"]).config
        state :=
          { memCache := some (detectBestGPUConfig false none linuxBackends ⟨none, none⟩ 0
              [.webgl "NVIDIA GeForce RTX 3080/PCIe/SSE2" "NVIDIA Corporation"]).config
            diskCache := (detectBestGPUConfig false none linuxBackends ⟨none, none⟩ 0
              [.webgl "NVIDIA GeForce RTX 3080/PCIe/SSE2" "NVIDIA Corporation"]).state.diskCache }
        probesLaunched := 0 }) ∧
    1 ≤ (detectBestGPUConfig false none linuxBackends
          ⟨none, (detectBestGPUConfig false none linuxBackends ⟨none, none⟩ 0
            [.webgl "NVIDIA GeForce RTX 3080/PCIe/SSE2" "NVIDIA Corporation"]).state.diskCache⟩
          CACHE_TTL []).probesLaunched :=
  ⟨⟨by decide, by decide, by decide⟩,
    (c7_cache_ttl_behavior linuxBackends
      [.webgl "NVIDIA GeForce RTX 3080/PCIe/SSE2" "NVIDIA Corporation"] 0
      (by decide)).1 CACHE_TTL [],
    (c7_cache_ttl_behavior linuxBackends
      [.webgl "NVIDIA GeForce RTX 3080/PCIe/SSE2" "NVIDIA Corporation"] 0
      (by decide)).2.1 0 [] (by decide),
    (c7_cache_ttl_behavior linuxBackends
      [.webgl "NVIDIA GeForce RTX 3080/PCIe/SSE2" "NVIDIA Corporation"] 0
      (by decide)).2.2 CACHE_TTL [] (by decide)⟩

/-! ## Claim C8: detector never throws, universal software fallback -/

/-- C8: `detectBestGPUConfig` is a total function (the embedding returns a
result for every input, mirroring that every probe failure is caught), and
whenever no cache applies and every probe outcome is non-accelerated
(launch failures, missing WebGL, missing debug info, or software renderer
strings alike), it returns exactly the universal software fallback
profile, whose backend is "software" and which is not hardware
accelerated. -/
theorem c8_software_fallback (forceDetect : Bool) (prefer : Option String)
    (backends : List GPUBackend) (st : DetectorState) (now : ℕ)
    (probes : List ProbeOutcome)
    (hm : st.memCache = none) (hd : loadCachedConfig st.diskCache now = none)
    (hfail : ∀ o ∈ probes, probeIsHW o = false) :
    (detectBestGPUConfig forceDetect prefer backends st now probes).config =
        softwareFallbackConfig ∧
    (detectBestGPUConfig forceDetect prefer backends st now probes).config.backend =
        "software" ∧
    (detectBestGPUConfig forceDetect prefer backends st now probes).config.isHardwareAccelerated
        = false := by
  have hcore : ∀ count probes', (∀ o ∈ probes', probeIsHW o = false) →
      (tryBackendLoop now count backends probes').config = softwareFallbackConfig := by
    intro count probes' h
    rw [tryBackendLoop_all_fail now count backends probes' h]
  suffices h : (detectBestGPUConfig forceDetect prefer backends st now probes).config =
      softwareFallbackConfig by
    exact ⟨h, by rw [h]; rfl, by rw [h]; rfl⟩
  unfold detectBestGPUConfig
  rw [dif_neg (by rw [hm]; rintro ⟨-, h⟩; exact (Bool.false_ne_true h))]
  cases forceDetect
  · rw [hd]
    cases prefer with
    | none => exact hcore 0 probes hfail
    | some name =>
        simp only
        cases hfind : backends.find? (fun b => b.name == name) with
        | none => exact hcore 0 probes hfail
        | some preferred =>
            obtain ⟨h1, h2⟩ := takeOutcome_all_fail hfail
            simp only [h1, Bool.false_eq_true, if_false]
            exact hcore 1 _ h2
  · cases prefer with
    | none => exact hcore 0 probes hfail
    | some name =>
        simp only
        cases hfind : backends.find? (fun b => b.name == name) with
        | none => exact hcore 0 probes hfail
        | some preferred =>
            obtain ⟨h1, h2⟩ := takeOutcome_all_fail hfail
            simp only [h1, Bool.false_eq_true, if_false]
            exact hcore 1 _ h2

/-- C8 witness: all four failure modes in one oracle (launch error, missing
WebGL, missing debug info, software renderer) on the Linux candidate list
yield the software fallback. -/
theorem c8_software_fallback_witness :
    ((⟨none, none⟩ : DetectorState).memCache = none ∧
      loadCachedConfig (⟨none, none⟩ : DetectorState).diskCache 0 = none ∧
      (∀ o ∈ [ProbeOutcome.launchFail, .noWebGL, .noDebugInfo,
              .webgl "llvmpipe (LLVM 15.0.7, 256 bits)" "Mesa"],
          probeIsHW o = false)) ∧
    (detectBestGPUConfig false none linuxBackends ⟨none, none⟩ 0
        [.launchFail, .noWebGL, .noDebugInfo,
         .webgl "llvmpipe (LLVM 15.0.7, 256 bits)" "Mesa"]).config =
      softwareFallbackConfig :=
  ⟨⟨rfl, rfl, by decide⟩,
    (c8_software_fallback false none linuxBackends ⟨none, none⟩ 0
      [.launchFail, .noWebGL, .noDebugInfo,
       .webgl "llvmpipe (LLVM 15.0.7, 256 bits)" "Mesa"]
      rfl rfl (by decide)).1⟩

/-! ## Claim C9: guaranteed teardown -/

/-- C9, counterexample: a browser-launch failure occurs after the serving
endpoint was created but before the `try`/`finally`, so the error surfaces
with the serving endpoint never torn down. The claim says every failure
after the job begins tears down both resources. -/
theorem c9_launch_failure_leaks_server :
    (renderLifecycle ⟨true, false, .ok ()⟩ "out.mp4").result =
        .error "browser launch failed" ∧
    (renderLifecycle ⟨true, false, .ok ()⟩ "out.mp4").serverStarted = true ∧
    (renderLifecycle ⟨true, false, .ok ()⟩ "out.mp4").serverCleaned = false ∧
    (renderLifecycle ⟨true, false, .ok ()⟩ "out.mp4").browserClosed = false :=
  ⟨rfl, rfl, rfl, rfl⟩

/-- C9, amended: once duration detection and the browser launch succeed,
the `try`/`finally` guarantees that the browser host process is closed and
the serving endpoint cleaned up on every exit path — success or any body
failure (setup, capture, encode, finalize) — before the outcome surfaces;
a failure of the browser launch itself, however, surfaces with the serving
endpoint leaked. -/
theorem c9_teardown_after_launch (r : RenderRun) (output : String)
    (hd : r.durationOk = true) (hl : r.launchOk = true) :
    (renderLifecycle r output).browserClosed = true ∧
    (renderLifecycle r output).serverCleaned = true := by
  obtain ⟨d, l, b⟩ := r
  simp only at hd hl
  subst hd hl
  cases b <;> simp [renderLifecycle]

/-- C9 witness: a capture failure inside the body still tears down both
the browser and the serving endpoint. -/
theorem c9_teardown_after_launch_witness :
    ((⟨true, true, .error "capture failed"⟩ : RenderRun).durationOk = true ∧
      (⟨true, true, .error "capture failed"⟩ : RenderRun).launchOk = true) ∧
    (renderLifecycle ⟨true, true, .error "capture failed"⟩ "out.mp4").browserClosed = true ∧
    (renderLifecycle ⟨true, true, .error "capture failed"⟩ "out.mp4").serverCleaned = true :=
  ⟨⟨rfl, rfl⟩, c9_teardown_after_launch ⟨true, true, .error "capture failed"⟩ "out.mp4" rfl rfl⟩

/-! ## Claim C10: the frame partition -/

/-- C10: for every total frame count and every positive worker count, the
assignment `i ↦ worker (i % numWorkers)` is a true partition of
`[0, totalFrames)`: there are exactly `numWorkers` per-worker lists, frame
`i` appears in list `k` exactly when `k = i % numWorkers` (so no frame is
assigned twice and every frame below the total is assigned), every
assigned index is below the total, and each worker's list is strictly
ascending. -/
theorem c10_partition_correct (totalFrames numWorkers : ℕ) (_hW : 0 < numWorkers) :
    (frameAssignments totalFrames numWorkers).length = numWorkers ∧
    (∀ i, i < totalFrames → ∀ k, k < numWorkers →
      (i ∈ (frameAssignments totalFrames numWorkers).getD k [] ↔ k = i % numWorkers)) ∧
    (∀ k, k < numWorkers →
      ∀ i ∈ (frameAssignments totalFrames numWorkers).getD k [], i < totalFrames) ∧
    (∀ k, k < numWorkers →
      ((frameAssignments totalFrames numWorkers).getD k []).Sorted (· < ·)) := by
  rw [frameAssignments_eq]
  refine ⟨by simp, ?_, ?_, ?_⟩
  · intro i hi k hk
    rw [getD_map_range _ _ _ hk]
    simp only [List.mem_filter, List.mem_range, beq_iff_eq]
    constructor
    · rintro ⟨-, h⟩
      exact h.symm
    · intro h
      exact ⟨hi, h.symm⟩
  · intro k hk i hi
    rw [getD_map_range _ _ _ hk] at hi
    exact List.mem_range.mp (List.mem_of_mem_filter hi)
  · intro k hk
    rw [getD_map_range _ _ _ hk]
    exact (List.pairwise_lt_range _).sublist (List.filter_sublist _)

/-- C10 witness: seven frames over three workers. -/
theorem c10_partition_correct_witness :
    0 < 3 ∧
    ((frameAssignments 7 3).length = 3 ∧
    (∀ i, i < 7 → ∀ k, k < 3 →
      (i ∈ (frameAssignments 7 3).getD k [] ↔ k = i % 3)) ∧
    (∀ k, k < 3 → ∀ i ∈ (frameAssignments 7 3).getD k [], i < 7) ∧
    (∀ k, k < 3 → ((frameAssignments 7 3).getD k []).Sorted (· < ·))) :=
  ⟨by decide, c10_partition_correct 7 3 (by decide)⟩

/-! ## The scatter-gather orchestration machine (part_003, lines 215-299)

The orchestration body of `renderToMp4Parallel` is embedded as a
small-step machine. Each atomic step is one synchronous JavaScript code
segment between `await` suspension points; a schedule (list of task
activations) decides which task's next segment runs. Worker `k`'s loop is
`runWorker(k)`; the main task is the final
`while (encodedCount < totalFrames)` drain loop, which the code only runs
after `Promise.all` over the workers.

`processEncodeQueue` is two atomic segments: the synchronous
collect-and-delete loop (lines 232-241), and — only when the batch is
non-empty — the continuation after `await encoderPage.evaluate(...)` that
sets `nextEncodeFrame`, `encodedCount` and fires progress (lines 249-258).
The frames of the batch are appended to the output container inside the
awaited `loadAndEncode` (sequential `drawImage`/`add`, lines 204-210),
modelled at the commit step.

The capture payload is abstract: `cap : ℚ → α` stands for the
deterministic `captureFrameJPEG(page, timestamp)` data URL. -/

/-- The JavaScript `Map` used for `frameBuffer`, as an association list
with unique keys. -/
abbrev Buf (α : Type) := List (ℕ × α)

/-- `frameBuffer.get(i)` (as an `Option`, `undefined` = `none`). -/
def lookupBuf {α : Type} (buf : Buf α) (i : ℕ) : Option α :=
  (buf.find? (fun e => e.1 == i)).map (fun e => e.2)

/-- `frameBuffer.has(i)`. -/
def bufHas {α : Type} (buf : Buf α) (i : ℕ) : Bool :=
  (lookupBuf buf i).isSome

/-- `frameBuffer.set(i, p)`: replaces the payload if the key is present
(JavaScript `Map.set` semantics, no rejection), otherwise adds the entry. -/
def bufSet {α : Type} (buf : Buf α) (i : ℕ) (p : α) : Buf α :=
  if bufHas buf i then
    buf.map (fun e => if e.1 == i then (i, p) else e)
  else
    (i, p) :: buf

/-- `frameBuffer.delete(i)`. -/
def bufDelete {α : Type} (buf : Buf α) (i : ℕ) : Buf α :=
  buf.filter (fun e => !(e.1 == i))

/-- `MAX_BUFFERED_FRAMES = 300` (part_003, line 32). -/
def MAX_BUFFERED_FRAMES : ℕ := 300

/-- `ENCODE_BATCH_SIZE = 5` (part_003, line 221). -/
def ENCODE_BATCH_SIZE : ℕ := 5

/-- One collected batch entry: the frame index (the loop's `lookahead`),
its timestamp `lookahead / fps`, and the buffered payload. -/
abbrev Batch (α : Type) := List (ℕ × ℚ × α)

/-- One appended output-container frame: index, timestamp, duration,
payload. -/
abbrev EncOutput (α : Type) := List (ℕ × ℚ × ℚ × α)

/-- The collect loop of `processEncodeQueue` (lines 232-241): starting at
`look`, while the buffer has the lookahead index and fewer than `fuel`
entries were collected, move the entry from the buffer into the batch.
Returns (batch, remaining buffer, final lookahead). -/
def collectGo {α : Type} (fps : ℕ) : ℕ → ℕ → Buf α → Batch α × Buf α × ℕ
  | 0, look, buf => ([], buf, look)
  | fuel + 1, look, buf =>
    match lookupBuf buf look with
    | none => ([], buf, look)
    | some p =>
      let r := collectGo fps fuel (look + 1) (bufDelete buf look)
      ((look, (look : ℚ) / (fps : ℚ), p) :: r.1, r.2.1, r.2.2)

/-- The collect phase of one `processEncodeQueue` call. -/
def collectBatch {α : Type} (fps next : ℕ) (buf : Buf α) : Batch α × Buf α × ℕ :=
  collectGo fps ENCODE_BATCH_SIZE next buf

/-- Static job parameters of one `renderToMp4Parallel` run. -/
structure Cfg (α : Type) where
  totalFrames : ℕ
  fps : ℕ
  cap : ℚ → α
  numWorkers : ℕ

/-- Program counter of one worker task, pointing at its next atomic
segment. `check` is the flow-control test at the top of the per-frame
loop body; `waitCollect`/`waitCommit` are inside the backpressure wait
loop (lines 272-277); `capture` is the pending `captureFrameJPEG` whose
resolution inserts the frame (lines 281-283); `insCollect`/`insCommit`
are the `processEncodeQueue` call after the insert (line 286). The pc
carries the current frame index `i` while the iteration for `i` runs. -/
inductive Wpc (α : Type) where
  | check
  | waitCollect (i : ℕ)
  | waitCommit (i : ℕ) (b : Batch α) (l : ℕ)
  | capture (i : ℕ)
  | insCollect
  | insCommit (b : Batch α) (l : ℕ)

/-- One worker task: its pc and the frames of its assignment not yet
started. -/
structure Worker (α : Type) where
  pc : Wpc α
  frames : List ℕ

/-- Main-task pc: between loop iterations, or holding a pending encode. -/
inductive Mpc (α : Type) where
  | idle
  | commit (b : Batch α) (l : ℕ)

/-- The shared orchestration state (part_003, lines 216-218) plus the task
pcs and a ghost trace `inserted` of all indices ever passed to
`frameBuffer.set`, newest first. -/
structure MState (α : Type) where
  buffer : Buf α
  nextEncodeFrame : ℕ
  encodedCount : ℕ
  output : EncOutput α
  workers : List (Worker α)
  mpc : Mpc α
  inserted : List ℕ

/-- The post-`await` half of a non-empty `processEncodeQueue` call
(lines 243-259): the batch's frames were appended in order to the output
container (each with duration `1 / fps`), then `nextEncodeFrame` and
`encodedCount` advance. -/
def commitBatch {α : Type} (cfg : Cfg α) (s : MState α) (b : Batch α) (l : ℕ) :
    MState α :=
  { s with
    output := s.output ++ b.map (fun e => (e.1, e.2.1, (1 : ℚ) / (cfg.fps : ℚ), e.2.2))
    nextEncodeFrame := l
    encodedCount := s.encodedCount + b.length }

/-- Replace worker `k`'s task state. -/
def setWorker {α : Type} (s : MState α) (k : ℕ) (w : Worker α) : MState α :=
  { s with workers := s.workers.set k w }

/-- One atomic segment of worker `k` (`runWorker`, lines 263-288). A
worker with an empty assignment and pc `check` has returned; its
activations are no-ops, as are activations of nonexistent workers. -/
def wstep {α : Type} (cfg : Cfg α) (s : MState α) (k : ℕ) : MState α :=
  match s.workers.get? k with
  | none => s
  | some w =>
    match w.pc with
    | .check =>
      match w.frames with
      | [] => s
      | i :: rest =>
        if s.buffer.length > MAX_BUFFERED_FRAMES then
          setWorker s k ⟨.waitCollect i, rest⟩
        else
          setWorker s k ⟨.capture i, rest⟩
    | .waitCollect i =>
      let r := collectBatch cfg.fps s.nextEncodeFrame s.buffer
      if r.1.isEmpty then
        if s.buffer.length > MAX_BUFFERED_FRAMES - ENCODE_BATCH_SIZE then
          s
        else
          setWorker s k ⟨.capture i, w.frames⟩
      else
        setWorker { s with buffer := r.2.1 } k ⟨.waitCommit i r.1 r.2.2, w.frames⟩
    | .waitCommit i b l =>
      let s' := commitBatch cfg s b l
      if s'.buffer.length > MAX_BUFFERED_FRAMES - ENCODE_BATCH_SIZE then
        setWorker s' k ⟨.waitCollect i, w.frames⟩
      else
        setWorker s' k ⟨.capture i, w.frames⟩
    | .capture i =>
      setWorker
        { s with
          buffer := bufSet s.buffer i (cfg.cap ((i : ℚ) / (cfg.fps : ℚ)))
          inserted := i :: s.inserted }
        k ⟨.insCollect, w.frames⟩
    | .insCollect =>
      let r := collectBatch cfg.fps s.nextEncodeFrame s.buffer
      if r.1.isEmpty then
        setWorker s k ⟨.check, w.frames⟩
      else
        setWorker { s with buffer := r.2.1 } k ⟨.insCommit r.1 r.2.2, w.frames⟩
    | .insCommit b l =>
      setWorker (commitBatch cfg s b l) k ⟨.check, w.frames⟩

/-- A worker whose loop has returned. -/
def workerIsDone {α : Type} (w : Worker α) : Bool :=
  match w.pc, w.frames with
  | .check, [] => true
  | _, _ => false

/-- One atomic segment of the main task's final drain loop (lines
296-299); it only runs once `Promise.all` over the workers has resolved. -/
def mstep {α : Type} (cfg : Cfg α) (s : MState α) : MState α :=
  if s.workers.all workerIsDone then
    match s.mpc with
    | .idle =>
      if s.encodedCount < cfg.totalFrames then
        let r := collectBatch cfg.fps s.nextEncodeFrame s.buffer
        if r.1.isEmpty then s
        else { s with buffer := r.2.1, mpc := .commit r.1 r.2.2 }
      else s
    | .commit b l => { commitBatch cfg s b l with mpc := .idle }
  else s

/-- A schedule entry: which task's next atomic segment runs. -/
inductive Act where
  | worker (k : ℕ)
  | main
deriving DecidableEq, Repr

/-- One scheduled atomic step. -/
def step {α : Type} (cfg : Cfg α) (s : MState α) : Act → MState α
  | .worker k => wstep cfg s k
  | .main => mstep cfg s

/-- The state after setup (lines 216-226): empty buffer, counters at zero,
each worker holding its `frameAssignments` slice, main task idle. -/
def initState (cfg : Cfg α) : MState α :=
  { buffer := []
    nextEncodeFrame := 0
    encodedCount := 0
    output := []
    workers := (frameAssignments cfg.totalFrames cfg.numWorkers).map
      (fun fs => ⟨.check, fs⟩)
    mpc := .idle
    inserted := [] }

/-- Run the machine under a schedule. -/
def exec {α : Type} (cfg : Cfg α) (acts : List Act) : MState α :=
  acts.foldl (step cfg) (initState cfg)

/-! ## Buffer lemmas -/

lemma lookupBuf_eq_none_iff {α : Type} (buf : Buf α) (i : ℕ) :
    lookupBuf buf i = none ↔ ∀ e ∈ buf, e.1 ≠ i := by
  unfold lookupBuf
  rw [Option.map_eq_none']
  rw [List.find?_eq_none]
  constructor
  · intro h e he
    have := h e he
    simpa using this
  · intro h e he
    simpa using h e he

lemma lookupBuf_some_mem {α : Type} {buf : Buf α} {i : ℕ} {p : α}
    (h : lookupBuf buf i = some p) : (i, p) ∈ buf := by
  unfold lookupBuf at h
  rw [Option.map_eq_some'] at h
  obtain ⟨e, he, hep⟩ := h
  have hmem := List.mem_of_find?_eq_some he
  have hpred := List.find?_some he
  have h1 : e.1 = i := by simpa using hpred
  have : e = (i, p) := by
    cases e
    simp only at h1 hep
    rw [h1, hep]
  rwa [this] at hmem

lemma bufHas_eq_false_iff {α : Type} (buf : Buf α) (i : ℕ) :
    bufHas buf i = false ↔ ∀ e ∈ buf, e.1 ≠ i := by
  unfold bufHas
  rw [← lookupBuf_eq_none_iff]
  cases lookupBuf buf i <;> simp

lemma bufSet_fresh {α : Type} (buf : Buf α) (i : ℕ) (p : α)
    (h : ∀ e ∈ buf, e.1 ≠ i) :
    bufSet buf i p = (i, p) :: buf := by
  unfold bufSet
  rw [if_neg]
  rw [Bool.not_eq_true, bufHas_eq_false_iff]
  exact h

lemma bufDelete_sublist {α : Type} (buf : Buf α) (i : ℕ) :
    List.Sublist (bufDelete buf i) buf :=
  List.filter_sublist _

lemma mem_bufDelete_ne {α : Type} {buf : Buf α} {i : ℕ} {e : ℕ × α}
    (h : e ∈ bufDelete buf i) : e.1 ≠ i := by
  unfold bufDelete at h
  have := List.of_mem_filter h
  simpa using this

/-! ## Collect lemmas -/

lemma collectGo_none {α : Type} (fps fuel look : ℕ) (buf : Buf α)
    (h : lookupBuf buf look = none) :
    collectGo fps fuel look buf = ([], buf, look) := by
  cases fuel with
  | zero => rfl
  | succ n =>
      unfold collectGo
      rw [h]

lemma collectBatch_none {α : Type} (fps next : ℕ) (buf : Buf α)
    (h : lookupBuf buf next = none) :
    collectBatch fps next buf = ([], buf, next) :=
  collectGo_none fps ENCODE_BATCH_SIZE next buf h

/-- Characterization of the collect loop on a buffer with unique keys
whose payloads follow a law `f`: it removes and returns the contiguous run
present at the lookahead, of some length `n ≤ fuel`. -/
lemma collectGo_char {α : Type} (fps : ℕ) (f : ℕ → α) (fuel : ℕ) :
    ∀ (look : ℕ) (buf : Buf α),
    (buf.map Prod.fst).Nodup →
    (∀ e ∈ buf, e.2 = f e.1) →
    ∃ n, n ≤ fuel ∧
      (collectGo fps fuel look buf).1 =
        (List.range' look n).map (fun j : ℕ => (j, (j : ℚ) / (fps : ℚ), f j)) ∧
      (collectGo fps fuel look buf).2.2 = look + n ∧
      List.Sublist (collectGo fps fuel look buf).2.1 buf ∧
      (∀ e ∈ (collectGo fps fuel look buf).2.1, e.1 < look ∨ look + n ≤ e.1) ∧
      (∀ j, look ≤ j → j < look + n → ∃ p, (j, p) ∈ buf) := by
  induction fuel with
  | zero =>
      intro look buf _ _
      exact ⟨0, le_refl _, rfl, rfl, List.Sublist.refl _,
        fun e _ => by omega, fun j h1 h2 => by omega⟩
  | succ fuel ih =>
      intro look buf hnd hpay
      cases hl : lookupBuf buf look with
      | none =>
          rw [show collectGo fps (fuel + 1) look buf = ([], buf, look) from
            collectGo_none fps (fuel + 1) look buf hl]
          exact ⟨0, Nat.zero_le _, rfl, rfl, List.Sublist.refl _,
            fun e _ => by omega, fun j h1 h2 => by omega⟩
      | some p =>
          have hdnd : ((bufDelete buf look).map Prod.fst).Nodup :=
            ((bufDelete_sublist buf look).map Prod.fst).nodup hnd
          have hdpay : ∀ e ∈ bufDelete buf look, e.2 = f e.1 :=
            fun e he => hpay e ((bufDelete_sublist buf look).mem he)
          obtain ⟨n, hn, hbatch, hlook, hsub, hout, hpres⟩ :=
            ih (look + 1) (bufDelete buf look) hdnd hdpay
          have hp : p = f look := by
            have hmem := lookupBuf_some_mem hl
            have := hpay (look, p) hmem
            simpa using this
          have hgo : collectGo fps (fuel + 1) look buf =
              ((look, (look : ℚ) / (fps : ℚ), p) ::
                  (collectGo fps fuel (look + 1) (bufDelete buf look)).1,
                (collectGo fps fuel (look + 1) (bufDelete buf look)).2.1,
                (collectGo fps fuel (look + 1) (bufDelete buf look)).2.2) := by
            simp only [collectGo, hl]
          refine ⟨n + 1, by omega, ?_, ?_, ?_, ?_, ?_⟩
          · rw [hgo]
            simp only
            rw [hbatch, hp]
            rw [List.range'_succ]
            rfl
          · rw [hgo]
            simp only
            omega
          · rw [hgo]
            exact hsub.trans (bufDelete_sublist buf look)
          · rw [hgo]
            simp only
            intro e he
            rcases hout e he with h1 | h1
            · rcases Nat.lt_or_ge e.1 look with h2 | h2
              · exact Or.inl h2
              · exfalso
                have : e.1 = look := by omega
                exact mem_bufDelete_ne (hsub.mem he) this
            · right
              omega
          · intro j h1 h2
            rcases Nat.eq_or_lt_of_le h1 with h3 | h3
            · subst h3
              exact ⟨p, lookupBuf_some_mem hl⟩
            · obtain ⟨q, hq⟩ := hpres j h3 (by omega)
              exact ⟨q, (bufDelete_sublist buf look).mem hq⟩

/-! ## Invariant vocabulary -/

/-- The frames a worker has not yet inserted: its unstarted assignment,
plus the current frame while its iteration is before the insert. -/
def wFrames {α : Type} (w : Worker α) : List ℕ :=
  match w.pc with
  | .waitCollect i => i :: w.frames
  | .waitCommit i _ _ => i :: w.frames
  | .capture i => i :: w.frames
  | _ => w.frames

/-- The in-flight encode (collected batch awaiting its commit) a worker
holds, if any. -/
def wPending {α : Type} (w : Worker α) : List (Batch α × ℕ) :=
  match w.pc with
  | .waitCommit _ b l => [(b, l)]
  | .insCommit b l => [(b, l)]
  | _ => []

/-- The in-flight encode the main task holds, if any. -/
def mPending {α : Type} : Mpc α → List (Batch α × ℕ)
  | .commit b l => [(b, l)]
  | .idle => []

/-- All in-flight encodes. -/
def pendings {α : Type} (s : MState α) : List (Batch α × ℕ) :=
  (s.workers.map wPending).flatten ++ mPending s.mpc

/-- Is the worker between passing the flow-control check and inserting? -/
def isCapturePc {α : Type} (w : Worker α) : Bool :=
  match w.pc with
  | .capture _ => true
  | _ => false

/-- Number of workers that passed flow control but have not yet inserted. -/
def captureCount {α : Type} (s : MState α) : ℕ :=
  (s.workers.filter isCapturePc).length

/-- The least index that may still be sitting in the buffer: the bound of
the in-flight batch if one exists, else `nextEncodeFrame`. -/
def drainFloor {α : Type} (s : MState α) : ℕ :=
  match pendings s with
  | [] => s.nextEncodeFrame
  | q :: _ => q.2

/-- The batch a drain starting at `a` of `n` ready frames produces. -/
def canonBatch {α : Type} (cfg : Cfg α) (a n : ℕ) : Batch α :=
  (List.range' a n).map
    (fun i : ℕ => (i, (i : ℚ) / (cfg.fps : ℚ), cfg.cap ((i : ℚ) / (cfg.fps : ℚ))))

/-- The canonical output after frames `0, …, n-1` were appended: frame `i`
at timestamp `i / fps` with duration `1 / fps` and payload
`cap (i / fps)`. -/
def canonOut {α : Type} (cfg : Cfg α) (n : ℕ) : EncOutput α :=
  (List.range n).map
    (fun i : ℕ => (i, (i : ℚ) / (cfg.fps : ℚ), (1 : ℚ) / (cfg.fps : ℚ),
      cfg.cap ((i : ℚ) / (cfg.fps : ℚ))))

lemma canonBatch_length {α : Type} (cfg : Cfg α) (a n : ℕ) :
    (canonBatch cfg a n).length = n := by
  simp [canonBatch]

lemma range_split (a l : ℕ) (h : a ≤ l) :
    List.range l = List.range a ++ List.range' a (l - a) := by
  rw [List.range_eq_range', List.range_eq_range']
  have e := List.range'_append 0 a (l - a) 1
  simp only [Nat.zero_add, Nat.one_mul] at e
  rw [e, show l - a + a = l by omega]

lemma canonOut_append_batch {α : Type} (cfg : Cfg α) (a l : ℕ) (h : a ≤ l) :
    canonOut cfg a ++ (canonBatch cfg a (l - a)).map
        (fun e => (e.1, e.2.1, (1 : ℚ) / (cfg.fps : ℚ), e.2.2)) =
      canonOut cfg l := by
  unfold canonOut canonBatch
  rw [List.map_map, range_split a l h, List.map_append]
  rfl

/-! ## Worker-list bookkeeping -/

lemma list_decomp {β : Type} {l : List β} {k : ℕ} {w : β}
    (hk : l.get? k = some w) :
    l = l.take k ++ w :: l.drop (k + 1) ∧
      ∀ w' : β, l.set k w' = l.take k ++ w' :: l.drop (k + 1) := by
  obtain ⟨hlen, hget⟩ := List.get?_eq_some.mp hk
  constructor
  · conv_lhs => rw [← List.take_append_drop k l]
    rw [← List.getElem_cons_drop l k hlen]
    rw [show l[k] = w from hget]
  · intro w'
    exact List.set_eq_take_cons_drop w' hlen

lemma flatten_map_decomp {β γ : Type} (g : β → List γ) {l : List β} {k : ℕ}
    {w : β} (hk : l.get? k = some w) :
    ((l.map g).flatten =
      ((l.take k).map g).flatten ++ (g w ++ ((l.drop (k + 1)).map g).flatten)) ∧
    ∀ w' : β, ((l.set k w').map g).flatten =
      ((l.take k).map g).flatten ++ (g w' ++ ((l.drop (k + 1)).map g).flatten) := by
  obtain ⟨hl, hset⟩ := list_decomp hk
  constructor
  · conv_lhs => rw [hl]
    simp [List.flatten_append]
  · intro w'
    rw [hset w']
    simp [List.flatten_append]

lemma length_filter_set {β : Type} (p : β → Bool) {l : List β} {k : ℕ}
    {w : β} (hk : l.get? k = some w) (w' : β) :
    ((l.set k w').filter p).length + (if p w then 1 else 0) =
      (l.filter p).length + (if p w' then 1 else 0) := by
  obtain ⟨hl, hset⟩ := list_decomp hk
  rw [hset w']
  conv_rhs => rw [hl]
  rw [List.filter_append, List.filter_append, List.filter_cons, List.filter_cons]
  by_cases h1 : p w <;> by_cases h2 : p w' <;>
    simp [h1, h2, List.length_append] <;> omega

lemma pendings_decomp {α : Type} (s : MState α) {k : ℕ} {w : Worker α}
    (hk : s.workers.get? k = some w) :
    (pendings s =
      ((s.workers.take k).map wPending).flatten ++
        (wPending w ++ (((s.workers.drop (k + 1)).map wPending).flatten ++
          mPending s.mpc))) ∧
    ∀ w' : Worker α, pendings (setWorker s k w') =
      ((s.workers.take k).map wPending).flatten ++
        (wPending w' ++ (((s.workers.drop (k + 1)).map wPending).flatten ++
          mPending s.mpc)) := by
  obtain ⟨h1, h2⟩ := flatten_map_decomp wPending hk
  constructor
  · unfold pendings
    rw [h1]
    simp [List.append_assoc]
  · intro w'
    unfold pendings setWorker
    simp only
    rw [h2 w']
    simp [List.append_assoc]

lemma pendings_set_same {α : Type} (s : MState α) {k : ℕ} {w : Worker α}
    (hk : s.workers.get? k = some w) (w' : Worker α)
    (h : wPending w' = wPending w) :
    pendings (setWorker s k w') = pendings s := by
  obtain ⟨h1, h2⟩ := pendings_decomp s hk
  rw [h2 w', h, ← h1]

lemma pendings_set_start {α : Type} (s : MState α) {k : ℕ} {w : Worker α}
    (hk : s.workers.get? k = some w) (w' : Worker α) (q : Batch α × ℕ)
    (hnow : pendings s = []) (hw' : wPending w' = [q]) :
    pendings (setWorker s k w') = [q] := by
  obtain ⟨h1, h2⟩ := pendings_decomp s hk
  rw [hnow] at h1
  have hA := List.append_eq_nil.mp h1.symm
  have hB := List.append_eq_nil.mp hA.2
  rw [h2 w', hw', hA.1, hB.2]
  simp

lemma pendings_set_finish {α : Type} (s : MState α) {k : ℕ} {w : Worker α}
    (hk : s.workers.get? k = some w) (w' : Worker α) (q : Batch α × ℕ)
    (hone : (pendings s).length ≤ 1) (hw : wPending w = [q])
    (hw' : wPending w' = []) :
    pendings s = [q] ∧ pendings (setWorker s k w') = [] := by
  obtain ⟨h1, h2⟩ := pendings_decomp s hk
  rw [hw] at h1
  have hlen : (pendings s).length =
      (((s.workers.take k).map wPending).flatten).length + 1 +
      ((((s.workers.drop (k + 1)).map wPending).flatten ++ mPending s.mpc)).length := by
    rw [h1]
    simp [List.length_append]
    omega
  have hA : ((s.workers.take k).map wPending).flatten = [] :=
    List.length_eq_zero.mp (by omega)
  have hB : (((s.workers.drop (k + 1)).map wPending).flatten ++ mPending s.mpc) = [] :=
    List.length_eq_zero.mp (by omega)
  constructor
  · rw [h1, hA, hB]
    simp
  · rw [h2 w', hw', hA, hB]
    simp

lemma workerIsDone_parts {α : Type} (w : Worker α) (h : workerIsDone w = true) :
    wPending w = [] ∧ wFrames w = [] ∧ isCapturePc w = false := by
  obtain ⟨pc, frames⟩ := w
  cases pc <;> cases frames <;>
    simp_all [workerIsDone, wPending, wFrames, isCapturePc]

lemma allDone_parts {α : Type} (s : MState α)
    (h : s.workers.all workerIsDone = true) :
    (s.workers.map wPending).flatten = [] ∧
    (s.workers.map wFrames).flatten = [] ∧
    captureCount s = 0 := by
  rw [List.all_eq_true] at h
  refine ⟨?_, ?_, ?_⟩
  · rw [List.flatten_eq_nil_iff]
    intro l hl
    rw [List.mem_map] at hl
    obtain ⟨w, hw, hwl⟩ := hl
    rw [← hwl]
    exact (workerIsDone_parts w (h w hw)).1
  · rw [List.flatten_eq_nil_iff]
    intro l hl
    rw [List.mem_map] at hl
    obtain ⟨w, hw, hwl⟩ := hl
    rw [← hwl]
    exact (workerIsDone_parts w (h w hw)).2.1
  · unfold captureCount
    rw [List.length_eq_zero, List.filter_eq_nil_iff]
    intro w hw
    rw [(workerIsDone_parts w (h w hw)).2.2]
    exact Bool.false_ne_true

/-! ## The machine invariant -/

/-- The state invariant maintained by every atomic step, whatever the
schedule: buffer keys are unique and at least the drain floor, payloads
follow the capture law, at most one encode is in flight and it is exactly
the contiguous run `[nextEncodeFrame, l)`, the output is the canonical
ordered prefix, every frame below the floor and every buffered frame was
inserted, the not-yet-inserted frames (across all workers) and the
already-inserted indices are jointly duplicate-free, and occupancy plus
in-flight inserts is bounded. -/
structure Inv {α : Type} (cfg : Cfg α) (s : MState α) : Prop where
  keysNodup : (s.buffer.map Prod.fst).Nodup
  payloadOk : ∀ e ∈ s.buffer, e.2 = cfg.cap ((e.1 : ℚ) / (cfg.fps : ℚ))
  floorLB : ∀ e ∈ s.buffer, drainFloor s ≤ e.1
  floorIns : ∀ j, j < drainFloor s → j ∈ s.inserted
  bufIns : ∀ e ∈ s.buffer, e.1 ∈ s.inserted
  pendOne : (pendings s).length ≤ 1
  pendShape : ∀ q ∈ pendings s,
    q.1 = canonBatch cfg s.nextEncodeFrame (q.2 - s.nextEncodeFrame) ∧
    s.nextEncodeFrame < q.2
  outOk : s.output = canonOut cfg s.nextEncodeFrame
  encOk : s.encodedCount = s.nextEncodeFrame
  freshNodup : ((s.workers.map wFrames).flatten ++ s.inserted).Nodup
  sizeOk : s.buffer.length + captureCount s ≤
    MAX_BUFFERED_FRAMES + s.workers.length
  wlen : s.workers.length = cfg.numWorkers

lemma drainFloor_of_nil {α : Type} {s : MState α} (hp : pendings s = []) :
    drainFloor s = s.nextEncodeFrame := by
  unfold drainFloor
  rw [hp]

lemma drainFloor_of_cons {α : Type} {s : MState α} {q : Batch α × ℕ}
    {rest : List (Batch α × ℕ)} (hp : pendings s = q :: rest) :
    drainFloor s = q.2 := by
  unfold drainFloor
  rw [hp]

/-- When an encode is in flight the head-of-line index is not in the
buffer, so the collect loop returns an empty batch: a second non-empty
drain can never start concurrently. -/
lemma collect_empty_of_pending {α : Type} {cfg : Cfg α} {s : MState α}
    (h : Inv cfg s) {q : Batch α × ℕ} {rest : List (Batch α × ℕ)}
    (hp : pendings s = q :: rest) :
    collectBatch cfg.fps s.nextEncodeFrame s.buffer =
      ([], s.buffer, s.nextEncodeFrame) := by
  apply collectBatch_none
  rw [lookupBuf_eq_none_iff]
  intro e he
  have h1 := h.floorLB e he
  rw [drainFloor_of_cons hp] at h1
  have h2 := (h.pendShape q (by rw [hp]; exact List.mem_cons_self _ _)).2
  omega

/-- If the collect loop returns a non-empty batch, no encode was in
flight. -/
lemma pendings_nil_of_collect_ne {α : Type} {cfg : Cfg α} {s : MState α}
    (h : Inv cfg s)
    (hne : (collectBatch cfg.fps s.nextEncodeFrame s.buffer).1 ≠ []) :
    pendings s = [] := by
  cases hp : pendings s with
  | nil => rfl
  | cons q rest =>
      exfalso
      apply hne
      rw [collect_empty_of_pending h hp]

/-- Instantiated collect characterization over an invariant state with no
encode in flight. -/
lemma collect_core {α : Type} {cfg : Cfg α} {s : MState α} (h : Inv cfg s)
    (hnp : pendings s = []) :
    ∃ n, n ≤ ENCODE_BATCH_SIZE ∧
      (collectBatch cfg.fps s.nextEncodeFrame s.buffer).1 =
        canonBatch cfg s.nextEncodeFrame n ∧
      (collectBatch cfg.fps s.nextEncodeFrame s.buffer).2.2 =
        s.nextEncodeFrame + n ∧
      List.Sublist (collectBatch cfg.fps s.nextEncodeFrame s.buffer).2.1 s.buffer ∧
      (∀ e ∈ (collectBatch cfg.fps s.nextEncodeFrame s.buffer).2.1,
        s.nextEncodeFrame + n ≤ e.1) ∧
      (∀ j, s.nextEncodeFrame ≤ j → j < s.nextEncodeFrame + n →
        j ∈ s.inserted) := by
  obtain ⟨n, hn, hbatch, hlook, hsub, hout, hpres⟩ :=
    collectGo_char cfg.fps (fun i : ℕ => cfg.cap ((i : ℚ) / (cfg.fps : ℚ)))
      ENCODE_BATCH_SIZE s.nextEncodeFrame s.buffer h.keysNodup h.payloadOk
  have hfloor := drainFloor_of_nil hnp
  refine ⟨n, hn, hbatch, hlook, hsub, ?_, ?_⟩
  · intro e he
    rcases hout e he with h1 | h1
    · exfalso
      have h2 := h.floorLB e (hsub.mem he)
      rw [hfloor] at h2
      omega
    · exact h1
  · intro j h1 h2
    obtain ⟨p, hp⟩ := hpres j h1 h2
    exact h.bufIns (j, p) hp

/-! ## Generic step-preservation lemmas -/

/-- Steps that only move a task pc, leaving the shared state, the
not-yet-inserted frames, the in-flight encodes and the capture window
unchanged, preserve the invariant. -/
lemma inv_frame_generic {α : Type} {cfg : Cfg α} {s s₂ : MState α}
    (h : Inv cfg s)
    (hbuf : s₂.buffer = s.buffer)
    (hnext : s₂.nextEncodeFrame = s.nextEncodeFrame)
    (henc : s₂.encodedCount = s.encodedCount)
    (hout : s₂.output = s.output)
    (hins : s₂.inserted = s.inserted)
    (hpend : pendings s₂ = pendings s)
    (hflat : (s₂.workers.map wFrames).flatten = (s.workers.map wFrames).flatten)
    (hsize : s₂.buffer.length + captureCount s₂ ≤
      MAX_BUFFERED_FRAMES + s₂.workers.length)
    (hwlen : s₂.workers.length = cfg.numWorkers) :
    Inv cfg s₂ := by
  have hfloor : drainFloor s₂ = drainFloor s := by
    unfold drainFloor
    rw [hpend, hnext]
  refine ⟨?_, ?_, ?_, ?_, ?_, ?_, ?_, ?_, ?_, ?_, hsize, hwlen⟩
  · rw [hbuf]; exact h.keysNodup
  · rw [hbuf]; exact h.payloadOk
  · rw [hbuf, hfloor]; exact h.floorLB
  · rw [hfloor, hins]; exact h.floorIns
  · rw [hbuf, hins]; exact h.bufIns
  · rw [hpend]; exact h.pendOne
  · rw [hpend, hnext]; exact h.pendShape
  · rw [hout, hnext]; exact h.outOk
  · rw [henc, hnext]; exact h.encOk
  · rw [hflat, hins]; exact h.freshNodup

/-- A non-empty collect (the first half of `processEncodeQueue`) preserves
the invariant: the batch leaves the buffer and becomes the unique
in-flight encode. -/
lemma inv_collect_generic {α : Type} {cfg : Cfg α} {s s₂ : MState α}
    (h : Inv cfg s) (hnp : pendings s = [])
    (hne : (collectBatch cfg.fps s.nextEncodeFrame s.buffer).1 ≠ [])
    (hbuf : s₂.buffer = (collectBatch cfg.fps s.nextEncodeFrame s.buffer).2.1)
    (hnext : s₂.nextEncodeFrame = s.nextEncodeFrame)
    (henc : s₂.encodedCount = s.encodedCount)
    (hout : s₂.output = s.output)
    (hins : s₂.inserted = s.inserted)
    (hpend : pendings s₂ =
      [((collectBatch cfg.fps s.nextEncodeFrame s.buffer).1,
        (collectBatch cfg.fps s.nextEncodeFrame s.buffer).2.2)])
    (hflat : (s₂.workers.map wFrames).flatten = (s.workers.map wFrames).flatten)
    (hcapc : captureCount s₂ = captureCount s)
    (hwlen : s₂.workers.length = s.workers.length) :
    Inv cfg s₂ := by
  obtain ⟨n, hn, hbatch, hlook, hsub, hlb, hpres⟩ := collect_core h hnp
  have hn0 : n ≠ 0 := by
    intro h0
    apply hne
    rw [hbatch, h0]
    rfl
  have hfloor : drainFloor s₂ = s.nextEncodeFrame + n := by
    unfold drainFloor
    rw [hpend, hlook]
  refine ⟨?_, ?_, ?_, ?_, ?_, ?_, ?_, ?_, ?_, ?_, ?_, ?_⟩
  · rw [hbuf]; exact (hsub.map Prod.fst).nodup h.keysNodup
  · rw [hbuf]; exact fun e he => h.payloadOk e (hsub.mem he)
  · rw [hbuf, hfloor]; exact hlb
  · rw [hfloor, hins]
    intro j hj
    rcases Nat.lt_or_ge j s.nextEncodeFrame with h1 | h1
    · have := h.floorIns j
      rw [drainFloor_of_nil hnp] at this
      exact this h1
    · exact hpres j h1 hj
  · rw [hbuf, hins]; exact fun e he => h.bufIns e (hsub.mem he)
  · rw [hpend]; exact le_refl _
  · rw [hpend, hnext]
    intro q hq
    rw [List.mem_singleton] at hq
    subst hq
    constructor
    · rw [hbatch, hlook]
      congr 1
      omega
    · rw [hlook]
      omega
  · rw [hout, hnext]; exact h.outOk
  · rw [henc, hnext]; exact h.encOk
  · rw [hflat, hins]; exact h.freshNodup
  · rw [hbuf, hcapc, hwlen]
    have := hsub.length_le
    have := h.sizeOk
    omega
  · rw [hwlen]; exact h.wlen

/-- A commit (the second half of a non-empty `processEncodeQueue`)
preserves the invariant: the unique in-flight batch is appended to the
output in order and the counters advance over it. -/
lemma inv_commit_generic {α : Type} {cfg : Cfg α} {s s₂ : MState α}
    {b : Batch α} {l : ℕ}
    (h : Inv cfg s) (hps : pendings s = [(b, l)])
    (hbuf : s₂.buffer = s.buffer)
    (hnext : s₂.nextEncodeFrame = l)
    (henc : s₂.encodedCount = s.encodedCount + b.length)
    (hout : s₂.output = s.output ++
      b.map (fun e => (e.1, e.2.1, (1 : ℚ) / (cfg.fps : ℚ), e.2.2)))
    (hins : s₂.inserted = s.inserted)
    (hpend : pendings s₂ = [])
    (hflat : (s₂.workers.map wFrames).flatten = (s.workers.map wFrames).flatten)
    (hsize : s₂.buffer.length + captureCount s₂ ≤
      MAX_BUFFERED_FRAMES + s₂.workers.length)
    (hwlen : s₂.workers.length = cfg.numWorkers) :
    Inv cfg s₂ := by
  obtain ⟨hshape, hlt⟩ := h.pendShape (b, l) (by rw [hps]; exact List.mem_cons_self _ _)
  simp only at hshape hlt
  have hfloor₂ : drainFloor s₂ = l := by
    rw [drainFloor_of_nil hpend, hnext]
  have hfloor₁ : drainFloor s = l := drainFloor_of_cons hps
  refine ⟨?_, ?_, ?_, ?_, ?_, ?_, ?_, ?_, ?_, ?_, hsize, hwlen⟩
  · rw [hbuf]; exact h.keysNodup
  · rw [hbuf]; exact h.payloadOk
  · rw [hbuf, hfloor₂, ← hfloor₁]; exact h.floorLB
  · rw [hfloor₂, hins, ← hfloor₁]; exact h.floorIns
  · rw [hbuf, hins]; exact h.bufIns
  · rw [hpend]; simp
  · rw [hpend]; intro q hq; cases hq
  · rw [hout, hnext, h.outOk, hshape]
    exact canonOut_append_batch cfg s.nextEncodeFrame l (by omega)
  · rw [henc, hnext, h.encOk, hshape, canonBatch_length]
    omega
  · rw [hflat, hins]; exact h.freshNodup

/-- An insert of a never-inserted frame preserves the invariant. -/
lemma inv_insert_generic {α : Type} {cfg : Cfg α} {s s₂ : MState α} {i : ℕ}
    (h : Inv cfg s) (hfresh : i ∉ s.inserted)
    (hbuf : s₂.buffer = bufSet s.buffer i (cfg.cap ((i : ℚ) / (cfg.fps : ℚ))))
    (hnext : s₂.nextEncodeFrame = s.nextEncodeFrame)
    (henc : s₂.encodedCount = s.encodedCount)
    (hout : s₂.output = s.output)
    (hins : s₂.inserted = i :: s.inserted)
    (hpend : pendings s₂ = pendings s)
    (hnodup : ((s₂.workers.map wFrames).flatten ++ s₂.inserted).Nodup)
    (hcnt : captureCount s₂ + 1 = captureCount s)
    (hwlen : s₂.workers.length = s.workers.length) :
    Inv cfg s₂ := by
  have hkey : ∀ e ∈ s.buffer, e.1 ≠ i := by
    intro e he hei
    exact hfresh (hei ▸ h.bufIns e he)
  have hcons : bufSet s.buffer i (cfg.cap ((i : ℚ) / (cfg.fps : ℚ))) =
      (i, cfg.cap ((i : ℚ) / (cfg.fps : ℚ))) :: s.buffer :=
    bufSet_fresh _ _ _ hkey
  have hfloor : drainFloor s₂ = drainFloor s := by
    unfold drainFloor
    rw [hpend, hnext]
  have hiLB : drainFloor s ≤ i := by
    by_contra hc
    exact hfresh (h.floorIns i (by omega))
  refine ⟨?_, ?_, ?_, ?_, ?_, ?_, ?_, ?_, ?_, hnodup, ?_, ?_⟩
  · rw [hbuf, hcons]
    simp only [List.map_cons]
    exact List.Nodup.cons (by
      intro hmem
      rw [List.mem_map] at hmem
      obtain ⟨e, he, hei⟩ := hmem
      exact hkey e he hei) h.keysNodup
  · rw [hbuf, hcons]
    intro e he
    rcases List.mem_cons.mp he with h1 | h1
    · rw [h1]
    · exact h.payloadOk e h1
  · rw [hbuf, hcons, hfloor]
    intro e he
    rcases List.mem_cons.mp he with h1 | h1
    · rw [h1]; exact hiLB
    · exact h.floorLB e h1
  · rw [hfloor, hins]
    intro j hj
    exact List.mem_cons_of_mem _ (h.floorIns j hj)
  · rw [hbuf, hcons, hins]
    intro e he
    rcases List.mem_cons.mp he with h1 | h1
    · rw [h1]; exact List.mem_cons_self _ _
    · exact List.mem_cons_of_mem _ (h.bufIns e h1)
  · rw [hpend]; exact h.pendOne
  · rw [hpend, hnext]; exact h.pendShape
  · rw [hout, hnext]; exact h.outOk
  · rw [henc, hnext]; exact h.encOk
  · rw [hbuf, hcons]
    have := h.sizeOk
    simp only [List.length_cons]
    rw [hwlen]
    omega
  · rw [hwlen]; exact h.wlen


/-! ## Per-transition instantiations -/

lemma captureCount_set {α : Type} {s : MState α} {k : ℕ} {w : Worker α}
    (hk : s.workers.get? k = some w) (w' : Worker α) :
    captureCount (setWorker s k w') + (if isCapturePc w then 1 else 0) =
      captureCount s + (if isCapturePc w' then 1 else 0) :=
  length_filter_set isCapturePc hk w'

lemma captureCount_set_le {α : Type} (s : MState α) (k : ℕ) (w' : Worker α) :
    captureCount (setWorker s k w') ≤ s.workers.length := by
  unfold captureCount setWorker
  simp only
  calc ((s.workers.set k w').filter isCapturePc).length
      ≤ (s.workers.set k w').length := List.length_filter_le _ _
    _ = s.workers.length := List.length_set _ _ _

lemma flatten_set_eq {α : Type} {s : MState α} {k : ℕ} {w : Worker α}
    (hk : s.workers.get? k = some w) (w' : Worker α)
    (hfr : wFrames w' = wFrames w) :
    (((setWorker s k w').workers).map wFrames).flatten =
      ((s.workers.map wFrames)).flatten := by
  obtain ⟨h1, h2⟩ := flatten_map_decomp wFrames hk
  show ((s.workers.set k w').map wFrames).flatten = _
  rw [h2 w', hfr, ← h1]

/-- A pure pc move of worker `k` that keeps its pending frames, in-flight
encode and capture status. -/
lemma inv_setWorker_same {α : Type} {cfg : Cfg α} {s : MState α} {k : ℕ}
    {w : Worker α} (h : Inv cfg s) (hk : s.workers.get? k = some w)
    (w' : Worker α) (hfr : wFrames w' = wFrames w)
    (hpd : wPending w' = wPending w)
    (hcap : isCapturePc w' = isCapturePc w) :
    Inv cfg (setWorker s k w') := by
  apply inv_frame_generic h
  · rfl
  · rfl
  · rfl
  · rfl
  · rfl
  · exact pendings_set_same s hk w' hpd
  · exact flatten_set_eq hk w' hfr
  · have hc := captureCount_set hk w'
    rw [hcap] at hc
    have he : captureCount (setWorker s k w') = captureCount s := by omega
    show s.buffer.length + captureCount (setWorker s k w') ≤
      MAX_BUFFERED_FRAMES + (s.workers.set k w').length
    rw [he, List.length_set]
    exact h.sizeOk
  · show (s.workers.set k w').length = _
    rw [List.length_set]
    exact h.wlen

/-- Worker `k` passes flow control and enters the capture window; this
requires the occupancy it just observed to be within the limit. -/
lemma inv_setWorker_toCapture {α : Type} {cfg : Cfg α} {s : MState α} {k : ℕ}
    {w : Worker α} (h : Inv cfg s) (hk : s.workers.get? k = some w)
    (w' : Worker α) (hfr : wFrames w' = wFrames w)
    (hpd : wPending w' = wPending w)
    (hlen : s.buffer.length ≤ MAX_BUFFERED_FRAMES) :
    Inv cfg (setWorker s k w') := by
  apply inv_frame_generic h
  · rfl
  · rfl
  · rfl
  · rfl
  · rfl
  · exact pendings_set_same s hk w' hpd
  · exact flatten_set_eq hk w' hfr
  · have hc := captureCount_set_le s k w'
    show s.buffer.length + captureCount (setWorker s k w') ≤
      MAX_BUFFERED_FRAMES + (s.workers.set k w').length
    rw [List.length_set]
    omega
  · show (s.workers.set k w').length = _
    rw [List.length_set]
    exact h.wlen

/-- Worker `k` runs a non-empty collect. -/
lemma inv_wCollect {α : Type} {cfg : Cfg α} {s : MState α} {k : ℕ}
    {w : Worker α} (h : Inv cfg s) (hk : s.workers.get? k = some w)
    (w' : Worker α)
    (hne : (collectBatch cfg.fps s.nextEncodeFrame s.buffer).1 ≠ [])
    (hfr : wFrames w' = wFrames w)
    (hpd' : wPending w' =
      [((collectBatch cfg.fps s.nextEncodeFrame s.buffer).1,
        (collectBatch cfg.fps s.nextEncodeFrame s.buffer).2.2)])
    (hcap : isCapturePc w' = isCapturePc w) :
    Inv cfg (setWorker
      { s with buffer := (collectBatch cfg.fps s.nextEncodeFrame s.buffer).2.1 }
      k w') := by
  have hnp := pendings_nil_of_collect_ne h hne
  have hk' : ({ s with
      buffer := (collectBatch cfg.fps s.nextEncodeFrame s.buffer).2.1 } :
        MState α).workers.get? k = some w := hk
  apply inv_collect_generic h hnp hne
  · rfl
  · rfl
  · rfl
  · rfl
  · rfl
  · exact pendings_set_start _ hk' w' _ hnp hpd'
  · exact flatten_set_eq hk' w' hfr
  · have hc := captureCount_set hk' w'
    rw [hcap] at hc
    have hcc : captureCount ({ s with
        buffer := (collectBatch cfg.fps s.nextEncodeFrame s.buffer).2.1 } :
          MState α) = captureCount s := rfl
    by_cases hb : isCapturePc w = true <;> simp [hb] at hc <;> omega
  · show (s.workers.set k w').length = _
    rw [List.length_set]

/-- Worker `k` commits its in-flight encode. -/
lemma inv_wCommit {α : Type} {cfg : Cfg α} {s : MState α} {k : ℕ}
    {w : Worker α} {b : Batch α} {l : ℕ} (h : Inv cfg s)
    (hk : s.workers.get? k = some w) (hpd : wPending w = [(b, l)])
    (w' : Worker α) (hfr : wFrames w' = wFrames w)
    (hpd' : wPending w' = [])
    (hsz : isCapturePc w' = true → s.buffer.length ≤ MAX_BUFFERED_FRAMES)
    (hcapw : isCapturePc w = false) :
    Inv cfg (setWorker (commitBatch cfg s b l) k w') := by
  have hk' : (commitBatch cfg s b l).workers.get? k = some w := hk
  have hpends : pendings (commitBatch cfg s b l) = pendings s := rfl
  obtain ⟨hps, hafter⟩ := pendings_set_finish (commitBatch cfg s b l) hk' w'
    (b, l) (by rw [hpends]; exact h.pendOne) hpd hpd'
  rw [hpends] at hps
  apply inv_commit_generic h hps
  · rfl
  · rfl
  · rfl
  · rfl
  · rfl
  · exact hafter
  · exact flatten_set_eq hk' w' hfr
  · have hle := captureCount_set_le (commitBatch cfg s b l) k w'
    have hc := captureCount_set hk' w'
    rw [hcapw] at hc
    simp only [Bool.false_eq_true, if_false] at hc
    have hcc : captureCount (commitBatch cfg s b l) = captureCount s := rfl
    have hwl : (commitBatch cfg s b l).workers.length = s.workers.length := rfl
    show s.buffer.length + captureCount (setWorker (commitBatch cfg s b l) k w') ≤
      MAX_BUFFERED_FRAMES + ((commitBatch cfg s b l).workers.set k w').length
    rw [List.length_set]
    by_cases hcw' : isCapturePc w' = true
    · have hlen := hsz hcw'
      omega
    · rw [Bool.not_eq_true] at hcw'
      rw [hcw'] at hc
      simp only [Bool.false_eq_true, if_false] at hc
      have := h.sizeOk
      omega
  · show ((commitBatch cfg s b l).workers.set k w').length = _
    rw [List.length_set]
    exact h.wlen

/-- Worker `k` resolves its capture and inserts the frame. -/
lemma inv_wInsert {α : Type} {cfg : Cfg α} {s : MState α} {k : ℕ}
    {w : Worker α} {i : ℕ} (h : Inv cfg s)
    (hk : s.workers.get? k = some w) (hpc : w.pc = .capture i) :
    Inv cfg (setWorker
      { s with
        buffer := bufSet s.buffer i (cfg.cap ((i : ℚ) / (cfg.fps : ℚ)))
        inserted := i :: s.inserted }
      k ⟨.insCollect, w.frames⟩) := by
  have hwf : wFrames w = i :: w.frames := by
    unfold wFrames
    rw [hpc]
  obtain ⟨hdec1, hdec2⟩ := flatten_map_decomp wFrames hk
  have hmemi : i ∈ (s.workers.map wFrames).flatten := by
    rw [hdec1, hwf]
    simp
  have hfresh : i ∉ s.inserted := by
    have hdisj := List.disjoint_of_nodup_append h.freshNodup
    exact fun hmem => hdisj hmemi hmem
  have hk₁ : ({ s with
      buffer := bufSet s.buffer i (cfg.cap ((i : ℚ) / (cfg.fps : ℚ)))
      inserted := i :: s.inserted } : MState α).workers.get? k = some w := hk
  apply inv_insert_generic h hfresh
  · rfl
  · rfl
  · rfl
  · rfl
  · rfl
  · apply pendings_set_same _ hk₁
    unfold wPending
    rw [hpc]
  · obtain ⟨-, hdec2'⟩ := flatten_map_decomp wFrames hk₁
    show ((((({ s with
        buffer := bufSet s.buffer i (cfg.cap ((i : ℚ) / (cfg.fps : ℚ)))
        inserted := i :: s.inserted } : MState α).workers.set k
          (⟨.insCollect, w.frames⟩ : Worker α))).map wFrames).flatten ++
      (i :: s.inserted)).Nodup
    rw [hdec2' ⟨.insCollect, w.frames⟩]
    have hold : ((((s.workers.take k).map wFrames).flatten ++
        (wFrames w ++ ((s.workers.drop (k + 1)).map wFrames).flatten)) ++
          s.inserted).Nodup := by
      rw [← hdec1]
      exact h.freshNodup
    rw [hwf] at hold
    have hnew : wFrames (⟨.insCollect, w.frames⟩ : Worker α) = w.frames := rfl
    rw [hnew]
    have hperm : List.Perm
        ((((s.workers.take k).map wFrames).flatten ++
          (i :: (w.frames ++ ((s.workers.drop (k + 1)).map wFrames).flatten))) ++
            s.inserted)
        ((((s.workers.take k).map wFrames).flatten ++
          (w.frames ++ ((s.workers.drop (k + 1)).map wFrames).flatten)) ++
            (i :: s.inserted)) := by
      rw [List.perm_iff_count]
      intro a
      by_cases hai : a = i <;>
        simp [List.count_append, List.count_cons, hai] <;> omega
    exact hperm.nodup hold
  · have hc := captureCount_set hk₁ (⟨.insCollect, w.frames⟩ : Worker α)
    have hcapw : isCapturePc w = true := by
      unfold isCapturePc
      rw [hpc]
    rw [hcapw] at hc
    have hcf : isCapturePc (⟨.insCollect, w.frames⟩ : Worker α) = false := rfl
    rw [hcf] at hc
    simp at hc
    have hcc : captureCount ({ s with
        buffer := bufSet s.buffer i (cfg.cap ((i : ℚ) / (cfg.fps : ℚ)))
        inserted := i :: s.inserted } : MState α) = captureCount s := rfl
    omega
  · show (({ s with
      buffer := bufSet s.buffer i (cfg.cap ((i : ℚ) / (cfg.fps : ℚ)))
      inserted := i :: s.inserted } : MState α).workers.set k
        (⟨.insCollect, w.frames⟩ : Worker α)).length = s.workers.length
    rw [List.length_set]


/-! ## The invariant holds initially and is preserved by every step -/

lemma frameAssignments_length (total W : ℕ) :
    (frameAssignments total W).length = W := by
  rw [frameAssignments_eq]
  simp

lemma frameAssignments_flatten_nodup (total W : ℕ) :
    ((frameAssignments total W).flatten).Nodup := by
  rw [frameAssignments_eq, List.nodup_flatten]
  constructor
  · intro l hl
    rw [List.mem_map] at hl
    obtain ⟨w, -, rfl⟩ := hl
    exact (List.nodup_range total).filter _
  · rw [List.pairwise_map]
    refine (List.pairwise_lt_range W).imp ?_
    intro a b hab x hxa hxb
    rw [List.mem_filter] at hxa hxb
    have h1 : x % W = a := by simpa using hxa.2
    have h2 : x % W = b := by simpa using hxb.2
    omega

lemma inv_init {α : Type} (cfg : Cfg α) : Inv cfg (initState cfg) := by
  have hpend : pendings (initState cfg) = [] := by
    unfold pendings initState mPending
    simp only [List.map_map, List.append_nil]
    rw [List.flatten_eq_nil_iff]
    intro l hl
    rw [List.mem_map] at hl
    obtain ⟨fs, -, rfl⟩ := hl
    rfl
  have hflat : ((initState cfg).workers.map wFrames).flatten =
      (frameAssignments cfg.totalFrames cfg.numWorkers).flatten := by
    unfold initState
    simp only [List.map_map]
    rw [show (wFrames ∘ fun fs : List ℕ => (⟨Wpc.check, fs⟩ : Worker α)) =
      (fun fs => fs) from rfl, List.map_id']
  have hcap : captureCount (initState cfg) = 0 := by
    unfold captureCount initState
    simp only
    rw [List.length_eq_zero, List.filter_eq_nil_iff]
    intro w hw
    rw [List.mem_map] at hw
    obtain ⟨fs, -, rfl⟩ := hw
    simp [isCapturePc]
  refine ⟨?_, ?_, ?_, ?_, ?_, ?_, ?_, ?_, ?_, ?_, ?_, ?_⟩
  · simp [initState]
  · intro e he
    cases he
  · intro e he
    cases he
  · rw [drainFloor_of_nil hpend]
    intro j hj
    exact absurd hj (by simp [initState])
  · intro e he
    cases he
  · rw [hpend]
    simp
  · rw [hpend]
    intro q hq
    cases hq
  · show ([] : EncOutput α) = canonOut cfg 0
    simp [canonOut]
  · rfl
  · rw [hflat]
    show ((frameAssignments cfg.totalFrames cfg.numWorkers).flatten ++ []).Nodup
    rw [List.append_nil]
    exact frameAssignments_flatten_nodup _ _
  · rw [hcap]
    simp [initState]
  · show ((frameAssignments cfg.totalFrames cfg.numWorkers).map _).length = _
    rw [List.length_map, frameAssignments_length]

lemma inv_wstep {α : Type} (cfg : Cfg α) (s : MState α) (k : ℕ)
    (h : Inv cfg s) : Inv cfg (wstep cfg s k) := by
  cases hk : s.workers.get? k with
  | none =>
      have hk2 : s.workers[k]? = none := by
        rw [← List.get?_eq_getElem?]
        exact hk
      have hstep : wstep cfg s k = s := by
        simp [wstep, hk2]
      rw [hstep]
      exact h
  | some w =>
    have hk2 : s.workers[k]? = some w := by
      rw [← List.get?_eq_getElem?]
      exact hk
    cases hpcE : w.pc with
    | check =>
        cases hfrE : w.frames with
        | nil =>
            have hstep : wstep cfg s k = s := by
              simp [wstep, hk2, hpcE, hfrE]
            rw [hstep]
            exact h
        | cons i rest =>
            by_cases hlen : s.buffer.length > MAX_BUFFERED_FRAMES
            · have hstep : wstep cfg s k =
                  setWorker s k ⟨.waitCollect i, rest⟩ := by
                simp [wstep, hk2, hpcE, hfrE, hlen]
              rw [hstep]
              apply inv_setWorker_same h hk
              · simp [wFrames, hpcE, hfrE]
              · simp [wPending, hpcE]
              · simp [isCapturePc, hpcE]
            · have hstep : wstep cfg s k =
                  setWorker s k ⟨.capture i, rest⟩ := by
                simp [wstep, hk2, hpcE, hfrE, hlen]
              rw [hstep]
              apply inv_setWorker_toCapture h hk
              · simp [wFrames, hpcE, hfrE]
              · simp [wPending, hpcE]
              · omega
    | waitCollect i =>
        by_cases hbe :
            (collectBatch cfg.fps s.nextEncodeFrame s.buffer).1.isEmpty = true
        · by_cases hlen : s.buffer.length >
              MAX_BUFFERED_FRAMES - ENCODE_BATCH_SIZE
          · have hstep : wstep cfg s k = s := by
              simp [wstep, hk2, hpcE, hbe, hlen]
            rw [hstep]
            exact h
          · have hstep : wstep cfg s k =
                setWorker s k ⟨.capture i, w.frames⟩ := by
              simp [wstep, hk2, hpcE, hbe, hlen]
            rw [hstep]
            apply inv_setWorker_toCapture h hk
            · simp [wFrames, hpcE]
            · simp [wPending, hpcE]
            · have e1 : MAX_BUFFERED_FRAMES - ENCODE_BATCH_SIZE = 295 := rfl
              have e2 : MAX_BUFFERED_FRAMES = 300 := rfl
              omega
        · have hne : (collectBatch cfg.fps s.nextEncodeFrame s.buffer).1 ≠ [] := by
            intro hnil
            rw [hnil] at hbe
            exact hbe rfl
          have hstep : wstep cfg s k =
              setWorker
                { s with buffer :=
                    (collectBatch cfg.fps s.nextEncodeFrame s.buffer).2.1 }
                k ⟨.waitCommit i
                    (collectBatch cfg.fps s.nextEncodeFrame s.buffer).1
                    (collectBatch cfg.fps s.nextEncodeFrame s.buffer).2.2,
                  w.frames⟩ := by
            simp [wstep, hk2, hpcE, hbe]
          rw [hstep]
          apply inv_wCollect h hk _ hne
          · simp [wFrames, hpcE]
          · simp [wPending]
          · simp [isCapturePc, hpcE]
    | waitCommit i b l =>
        have hpd : wPending w = [(b, l)] := by
          simp [wPending, hpcE]
        by_cases hlen : s.buffer.length >
            MAX_BUFFERED_FRAMES - ENCODE_BATCH_SIZE
        · have hstep : wstep cfg s k =
              setWorker (commitBatch cfg s b l) k ⟨.waitCollect i, w.frames⟩ := by
            simp [wstep, hk2, hpcE, commitBatch, hlen]
          rw [hstep]
          apply inv_wCommit h hk hpd
          · simp [wFrames, hpcE]
          · simp [wPending]
          · intro hcw
            exact absurd hcw (by simp [isCapturePc])
          · simp [isCapturePc, hpcE]
        · have hstep : wstep cfg s k =
              setWorker (commitBatch cfg s b l) k ⟨.capture i, w.frames⟩ := by
            simp [wstep, hk2, hpcE, commitBatch, hlen]
          rw [hstep]
          apply inv_wCommit h hk hpd
          · simp [wFrames, hpcE]
          · simp [wPending]
          · intro hcw
            have e1 : MAX_BUFFERED_FRAMES - ENCODE_BATCH_SIZE = 295 := rfl
            have e2 : MAX_BUFFERED_FRAMES = 300 := rfl
            omega
          · simp [isCapturePc, hpcE]
    | capture i =>
        have hstep : wstep cfg s k =
            setWorker
              { s with
                buffer := bufSet s.buffer i (cfg.cap ((i : ℚ) / (cfg.fps : ℚ)))
                inserted := i :: s.inserted }
              k ⟨.insCollect, w.frames⟩ := by
          simp [wstep, hk2, hpcE]
        rw [hstep]
        exact inv_wInsert h hk hpcE
    | insCollect =>
        by_cases hbe :
            (collectBatch cfg.fps s.nextEncodeFrame s.buffer).1.isEmpty = true
        · have hstep : wstep cfg s k = setWorker s k ⟨.check, w.frames⟩ := by
            simp [wstep, hk2, hpcE, hbe]
          rw [hstep]
          apply inv_setWorker_same h hk
          · simp [wFrames, hpcE]
          · simp [wPending, hpcE]
          · simp [isCapturePc, hpcE]
        · have hne : (collectBatch cfg.fps s.nextEncodeFrame s.buffer).1 ≠ [] := by
            intro hnil
            rw [hnil] at hbe
            exact hbe rfl
          have hstep : wstep cfg s k =
              setWorker
                { s with buffer :=
                    (collectBatch cfg.fps s.nextEncodeFrame s.buffer).2.1 }
                k ⟨.insCommit
                    (collectBatch cfg.fps s.nextEncodeFrame s.buffer).1
                    (collectBatch cfg.fps s.nextEncodeFrame s.buffer).2.2,
                  w.frames⟩ := by
            simp [wstep, hk2, hpcE, hbe]
          rw [hstep]
          apply inv_wCollect h hk _ hne
          · simp [wFrames, hpcE]
          · simp [wPending]
          · simp [isCapturePc, hpcE]
    | insCommit b l =>
        have hpd : wPending w = [(b, l)] := by
          simp [wPending, hpcE]
        have hstep : wstep cfg s k =
            setWorker (commitBatch cfg s b l) k ⟨.check, w.frames⟩ := by
          simp [wstep, hk2, hpcE]
        rw [hstep]
        apply inv_wCommit h hk hpd
        · simp [wFrames, hpcE]
        · simp [wPending]
        · intro hcw
          exact absurd hcw (by simp [isCapturePc])
        · simp [isCapturePc, hpcE]

lemma inv_mstep {α : Type} (cfg : Cfg α) (s : MState α) (h : Inv cfg s) :
    Inv cfg (mstep cfg s) := by
  by_cases hall : s.workers.all workerIsDone = true
  case neg =>
    have hstep : mstep cfg s = s := by
      simp [mstep, hall]
    rw [hstep]
    exact h
  case pos =>
    obtain ⟨hpd0, hfr0, hcap0⟩ := allDone_parts s hall
    cases hm : s.mpc with
    | idle =>
        have hnp : pendings s = [] := by
          unfold pendings
          rw [hpd0, hm]
          rfl
        by_cases henc : s.encodedCount < cfg.totalFrames
        · by_cases hbe :
              (collectBatch cfg.fps s.nextEncodeFrame s.buffer).1.isEmpty = true
          · have hstep : mstep cfg s = s := by
              simp [mstep, hall, hm, henc, hbe]
            rw [hstep]
            exact h
          · have hne :
                (collectBatch cfg.fps s.nextEncodeFrame s.buffer).1 ≠ [] := by
              intro hnil
              rw [hnil] at hbe
              exact hbe rfl
            have hstep : mstep cfg s =
                { s with
                  buffer := (collectBatch cfg.fps s.nextEncodeFrame s.buffer).2.1
                  mpc := .commit
                    (collectBatch cfg.fps s.nextEncodeFrame s.buffer).1
                    (collectBatch cfg.fps s.nextEncodeFrame s.buffer).2.2 } := by
              simp [mstep, hall, hm, henc, hbe]
            rw [hstep]
            apply inv_collect_generic h hnp hne
            · rfl
            · rfl
            · rfl
            · rfl
            · rfl
            · unfold pendings
              rw [show ({ s with
                  buffer := (collectBatch cfg.fps s.nextEncodeFrame s.buffer).2.1
                  mpc := Mpc.commit
                    (collectBatch cfg.fps s.nextEncodeFrame s.buffer).1
                    (collectBatch cfg.fps s.nextEncodeFrame s.buffer).2.2 } :
                    MState α).workers = s.workers from rfl]
              rw [hpd0]
              rfl
            · rfl
            · rfl
            · rfl
        · have hstep : mstep cfg s = s := by
            simp [mstep, hall, hm, henc]
          rw [hstep]
          exact h
    | commit b l =>
        have hps : pendings s = [(b, l)] := by
          unfold pendings
          rw [hpd0, hm]
          rfl
        have hstep : mstep cfg s =
            { commitBatch cfg s b l with mpc := .idle } := by
          simp [mstep, hall, hm]
        rw [hstep]
        apply inv_commit_generic h hps
        · rfl
        · rfl
        · rfl
        · rfl
        · rfl
        · unfold pendings
          rw [show ({ commitBatch cfg s b l with mpc := Mpc.idle } :
              MState α).workers = s.workers from rfl]
          rw [hpd0]
          rfl
        · rfl
        · show s.buffer.length + captureCount s ≤
            MAX_BUFFERED_FRAMES + s.workers.length
          exact h.sizeOk
        · exact h.wlen

/-- Every atomic step of every task preserves the invariant. -/
theorem inv_step {α : Type} (cfg : Cfg α) (s : MState α) (a : Act)
    (h : Inv cfg s) : Inv cfg (step cfg s a) := by
  cases a with
  | worker k => exact inv_wstep cfg s k h
  | main => exact inv_mstep cfg s h

/-- The invariant holds after any schedule. -/
theorem inv_exec {α : Type} (cfg : Cfg α) (acts : List Act) :
    Inv cfg (exec cfg acts) := by
  unfold exec
  suffices h : ∀ s : MState α, Inv cfg s → Inv cfg (acts.foldl (step cfg) s) by
    exact h _ (inv_init cfg)
  induction acts with
  | nil => exact fun s hs => hs
  | cons a as ih => exact fun s hs => ih _ (inv_step cfg s a hs)


/-! ## Claim C1: strict ordered contiguous drain -/

/-- C1: under every schedule (hence every interleaving of worker
insertions), the frame indices appended to the output are exactly
`0, 1, …, nextEncodeFrame - 1` in order — strictly increasing, contiguous,
starting at the initial `nextExpected = 0`, no index emitted before its
predecessor and none emitted twice; moreover whenever the index at the
current `nextExpected` is absent, the collect loop returns an empty batch
and removes nothing from the buffer, whatever later indices are present. -/
theorem c1_drain_strict_order {α : Type} (cfg : Cfg α) (acts : List Act) :
    ((exec cfg acts).output.map (fun e => e.1) =
      List.range (exec cfg acts).nextEncodeFrame) ∧
    (∀ (buf : Buf α) (next : ℕ), lookupBuf buf next = none →
      collectBatch cfg.fps next buf = ([], buf, next)) := by
  constructor
  · rw [(inv_exec cfg acts).outOk]
    unfold canonOut
    rw [List.map_map]
    exact List.map_id _
  · exact fun buf next h => collectBatch_none cfg.fps next buf h

/-- C1 witness: the empty schedule's output is the empty prefix, and a
concrete buffer holding only index 1 yields an empty batch and loses
nothing when drained at head-of-line index 0. -/
theorem c1_drain_strict_order_witness :
    ((exec (⟨6, 30, fun _ => (), 2⟩ : Cfg Unit) []).output.map (fun e => e.1) =
      List.range (exec (⟨6, 30, fun _ => (), 2⟩ : Cfg Unit) []).nextEncodeFrame) ∧
    collectBatch (⟨6, 30, fun _ => (), 2⟩ : Cfg Unit).fps 0 ([(1, ())] : Buf Unit) =
      ([], [(1, ())], 0) :=
  ⟨(c1_drain_strict_order (⟨6, 30, fun _ => (), 2⟩ : Cfg Unit) []).1,
    (c1_drain_strict_order (⟨6, 30, fun _ => (), 2⟩ : Cfg Unit) []).2
      [(1, ())] 0 rfl⟩

/-! ## Claim C2: flow control and the occupancy bound -/

/-- C2 (amended): occupancy can exceed the configured capacity
`MAX_BUFFERED_FRAMES`, but under every schedule it never exceeds
`MAX_BUFFERED_FRAMES + numWorkers`: each worker checks occupancy before
capturing and waits (retrying, draining cooperatively) only while
occupancy exceeds the capacity, so at most one frame per worker can be in
flight past a passed check. -/
theorem c2_occupancy_bound {α : Type} (cfg : Cfg α) (acts : List Act) :
    (exec cfg acts).buffer.length ≤ MAX_BUFFERED_FRAMES + cfg.numWorkers := by
  have h := inv_exec cfg acts
  have h1 := h.sizeOk
  have h2 := h.wlen
  omega

/-! ### C2 counterexample: a reachable state with occupancy 301 -/

/-- Job with 602 frames at fps 30 and two workers; worker 1 owns the odd
frames `1, 3, …, 601`, worker 0 (owning frame 0) is never scheduled. -/
def c2cfg : Cfg Unit := ⟨602, 30, fun _ => (), 2⟩

/-- The buffer after worker 1 inserted its first `k` frames (newest
first): all odd, so index 0 never becomes drainable. -/
def oddBuf (k : ℕ) : Buf Unit :=
  ((List.range k).reverse).map (fun j => (2 * j + 1, ()))

/-- The insert trace matching `oddBuf`. -/
def oddIns (k : ℕ) : List ℕ :=
  ((List.range k).reverse).map (fun j => 2 * j + 1)

/-- The machine state after worker 1 completed `k` insert iterations. -/
def c2state (k : ℕ) : MState Unit :=
  { buffer := oddBuf k
    nextEncodeFrame := 0
    encodedCount := 0
    output := []
    workers := [⟨.check, List.range' 0 301 2⟩,
                ⟨.check, List.range' (2 * k + 1) (301 - k) 2⟩]
    mpc := .idle
    inserted := oddIns k }

lemma oddBuf_length (k : ℕ) : (oddBuf k).length = k := by
  simp [oddBuf]

lemma oddBuf_succ (k : ℕ) : oddBuf (k + 1) = (2 * k + 1, ()) :: oddBuf k := by
  unfold oddBuf
  rw [List.range_succ]
  simp

lemma oddIns_succ (k : ℕ) : oddIns (k + 1) = (2 * k + 1) :: oddIns k := by
  unfold oddIns
  rw [List.range_succ]
  simp

lemma oddBuf_key_ne (k : ℕ) : ∀ e ∈ oddBuf k, e.1 ≠ 2 * k + 1 := by
  intro e he
  unfold oddBuf at he
  rw [List.mem_map] at he
  obtain ⟨j, hj, rfl⟩ := he
  rw [List.mem_reverse, List.mem_range] at hj
  simp only
  omega

lemma lookupBuf_oddBuf_zero (k : ℕ) : lookupBuf (oddBuf k) 0 = none := by
  rw [lookupBuf_eq_none_iff]
  intro e he
  unfold oddBuf at he
  rw [List.mem_map] at he
  obtain ⟨j, -, rfl⟩ := he
  simp only
  omega

lemma c2step (k : ℕ) (hk : k ≤ 300) :
    wstep c2cfg (wstep c2cfg (wstep c2cfg (c2state k) 1) 1) 1 =
      c2state (k + 1) := by
  have hfr : List.range' (2 * k + 1) (301 - k) 2 =
      (2 * k + 1) :: List.range' (2 * k + 3) (300 - k) 2 := by
    rw [show 301 - k = (300 - k) + 1 by omega, List.range'_succ]
  have hlen : ¬ (MAX_BUFFERED_FRAMES < ((c2state k).buffer).length) := by
    show ¬ (MAX_BUFFERED_FRAMES < (oddBuf k).length)
    rw [oddBuf_length]
    have e300 : MAX_BUFFERED_FRAMES = 300 := rfl
    omega
  have hget1 : (c2state k).workers.get? 1 =
      some ⟨.check, List.range' (2 * k + 1) (301 - k) 2⟩ := rfl
  have h1 : wstep c2cfg (c2state k) 1 =
      { c2state k with workers :=
          [⟨.check, List.range' 0 301 2⟩,
           ⟨.capture (2 * k + 1), List.range' (2 * k + 3) (300 - k) 2⟩] } := by
    simp only [wstep, hget1, hfr]
    rw [if_neg hlen]
    rfl
  rw [h1]
  have hset : bufSet (oddBuf k) (2 * k + 1) (c2cfg.cap ((2 * k + 1 : ℚ) / (c2cfg.fps : ℚ))) =
      (2 * k + 1, ()) :: oddBuf k := bufSet_fresh _ _ _ (oddBuf_key_ne k)
  have h2 : wstep c2cfg
      ({ c2state k with workers :=
          [⟨.check, List.range' 0 301 2⟩,
           ⟨.capture (2 * k + 1), List.range' (2 * k + 3) (300 - k) 2⟩] }) 1 =
      { buffer := oddBuf (k + 1)
        nextEncodeFrame := 0
        encodedCount := 0
        output := []
        workers := [⟨.check, List.range' 0 301 2⟩,
                    ⟨.insCollect, List.range' (2 * k + 3) (300 - k) 2⟩]
        mpc := .idle
        inserted := oddIns (k + 1) } := by
    simp only [wstep]
    show setWorker _ 1 _ = _
    unfold setWorker
    simp only [c2state]
    rw [show ((2 * k + 1 : ℕ) : ℚ) = ((2 * k + 1 : ℚ)) by push_cast; ring]
    rw [hset, ← oddBuf_succ, ← oddIns_succ]
    rfl
  rw [h2]
  have hcoll : collectBatch c2cfg.fps 0 (oddBuf (k + 1)) =
      ([], oddBuf (k + 1), 0) :=
    collectBatch_none _ _ _ (lookupBuf_oddBuf_zero (k + 1))
  have h3 : wstep c2cfg
      ({ buffer := oddBuf (k + 1)
         nextEncodeFrame := 0
         encodedCount := 0
         output := []
         workers := [⟨.check, List.range' 0 301 2⟩,
                     ⟨.insCollect, List.range' (2 * k + 3) (300 - k) 2⟩]
         mpc := .idle
         inserted := oddIns (k + 1) } : MState Unit) 1 =
      c2state (k + 1) := by
    simp only [wstep, hcoll]
    show setWorker _ 1 _ = _
    unfold setWorker c2state
    rw [show 2 * (k + 1) + 1 = 2 * k + 3 by omega,
        show 301 - (k + 1) = 300 - k by omega]
    rfl
  exact h3

set_option maxRecDepth 8000 in
lemma frameAssignments_602_2 :
    frameAssignments 602 2 = [List.range' 0 301 2, List.range' 1 301 2] := by
  decide

lemma c2run (k : ℕ) (hk : k ≤ 301) :
    exec c2cfg (List.replicate (3 * k) (Act.worker 1)) = c2state k := by
  induction k with
  | zero =>
      show initState c2cfg = c2state 0
      unfold initState c2state
      rw [show frameAssignments c2cfg.totalFrames c2cfg.numWorkers =
          [List.range' 0 301 2, List.range' 1 301 2] from frameAssignments_602_2]
      rfl
  | succ n ih =>
      have hn : n ≤ 301 := by omega
      have hrep : List.replicate (3 * (n + 1)) (Act.worker 1) =
          List.replicate (3 * n) (Act.worker 1) ++
            [Act.worker 1, Act.worker 1, Act.worker 1] := by
        rw [show 3 * (n + 1) = 3 * n + 3 by omega, List.replicate_add]
        rfl
      unfold exec at ih ⊢
      rw [hrep, List.foldl_append, ih hn]
      show wstep c2cfg (wstep c2cfg (wstep c2cfg (c2state n) 1) 1) 1 =
        c2state (n + 1)
      exact c2step n (by omega)

/-- C2, counterexample: with two workers, 602 frames and worker 0 never
scheduled, worker 1 passes the flow-control check at occupancy 300 (the
check only fires strictly above `MAX_BUFFERED_FRAMES`) and inserts its
301st frame: the reassembly buffer reaches occupancy 301, strictly above
the configured capacity of 300, while worker 1 is still inserting. -/
theorem c2_overflow_counterexample :
    MAX_BUFFERED_FRAMES <
      (exec c2cfg (List.replicate 903 (Act.worker 1))).buffer.length := by
  have h := c2run 301 (by omega)
  rw [show (903 : ℕ) = 3 * 301 by omega, h]
  show MAX_BUFFERED_FRAMES < (oddBuf 301).length
  rw [oddBuf_length]
  have e300 : MAX_BUFFERED_FRAMES = 300 := rfl
  omega

/-! ## Claim C3: the 60-frame end-to-end run -/

/-- Embeds `totalFrames = Math.ceil(duration * fps)` (part_003 line 130). -/
def computeTotalFrames (duration : ℚ) (fps : ℕ) : ℕ :=
  Nat.ceil (duration * fps)

/-- C3: with fps = 30 and duration 2 s the job has exactly 60 frames; in
general the output of every run is the canonical ordered sequence of
appends (frame `i` at timestamp `i / fps` with duration `1 / fps`,
appended strictly sequentially in index order); and for the 60-frame
4-worker job, every schedule that encodes all frames produces exactly 60
appends, the i-th at timestamp `i / 30` with duration `1 / 30`. -/
theorem c3_sixty_ordered_appends {α : Type} (cap : ℚ → α) (acts : List Act)
    (hdone : (exec ⟨60, 30, cap, 4⟩ acts).encodedCount = 60) :
    computeTotalFrames 2 30 = 60 ∧
    (∀ {β : Type} (cfg : Cfg β) (acts2 : List Act),
      (exec cfg acts2).output =
        canonOut cfg (exec cfg acts2).nextEncodeFrame) ∧
    (exec ⟨60, 30, cap, 4⟩ acts).output =
      (List.range 60).map (fun i : ℕ =>
        (i, (i : ℚ) / ((30 : ℕ) : ℚ), (1 : ℚ) / ((30 : ℕ) : ℚ),
          cap ((i : ℚ) / ((30 : ℕ) : ℚ)))) ∧
    ((exec ⟨60, 30, cap, 4⟩ acts).output).length = 60 := by
  have hinv := inv_exec (⟨60, 30, cap, 4⟩ : Cfg α) acts
  have hnext : (exec ⟨60, 30, cap, 4⟩ acts).nextEncodeFrame = 60 := by
    rw [← hinv.encOk]
    exact hdone
  refine ⟨?_, ?_, ?_, ?_⟩
  · unfold computeTotalFrames
    norm_num
  · intro β cfg acts2
    exact (inv_exec cfg acts2).outOk
  · rw [hinv.outOk, hnext]
    rfl
  · rw [hinv.outOk, hnext]
    simp [canonOut]

/-- A concrete completing schedule for the 60-frame, 4-worker job:
fine-grained round-robin over the workers, then the main drain loop. -/
def c3sched : List Act :=
  (List.replicate 70 [Act.worker 0, Act.worker 1, Act.worker 2, Act.worker 3]).flatten ++
    List.replicate 60 Act.main

set_option maxRecDepth 8000 in
/-- C3 witness: the round-robin schedule encodes all 60 frames, and the
theorem then gives the 60 ordered appends. -/
theorem c3_sixty_ordered_appends_witness :
    ((exec ⟨60, 30, fun _ => (), 4⟩ c3sched).encodedCount = 60) ∧
    ((exec ⟨60, 30, fun _ => (), 4⟩ c3sched).output).length = 60 :=
  ⟨by decide, (c3_sixty_ordered_appends (fun _ => ()) c3sched (by decide)).2.2.2⟩

/-! ## Claim C5: duplicate inserts -/

/-- C5, counterexample: `frameBuffer.set` on an index already present is
not rejected — it silently overwrites the stored payload and leaves the
size unchanged (JavaScript `Map.set` semantics; `runWorker` performs no
presence check before inserting). -/
theorem c5_insert_overwrites_counterexample :
    lookupBuf (bufSet (bufSet ([] : Buf String) 0 "first") 0 "second") 0 =
        some "second" ∧
    (bufSet (bufSet ([] : Buf String) 0 "first") 0 "second").length = 1 :=
  ⟨rfl, rfl⟩

/-- C5 (amended): although a duplicate insert would be silently accepted,
the orchestration never performs one: under every schedule the trace of
indices passed to `frameBuffer.set` is duplicate-free, because the frame
partition assigns each index to exactly one worker and each worker inserts
each assigned index exactly once. -/
theorem c5_no_duplicate_insert {α : Type} (cfg : Cfg α) (acts : List Act) :
    (exec cfg acts).inserted.Nodup :=
  (inv_exec cfg acts).freshNodup.of_append_right

/-! ## Claim C6: worker-count independence -/

/-- C6: for the same job (total frames, fps, capture function), any two
completed runs — whatever their worker counts and schedules — produce
identical outputs: the same appended frames with the same payloads,
timestamps and durations, in the same order. -/
theorem c6_worker_count_equivalence {α : Type} (totalFrames fps : ℕ)
    (cap : ℚ → α) (w1 w2 : ℕ) (acts1 acts2 : List Act)
    (h1 : (exec ⟨totalFrames, fps, cap, w1⟩ acts1).encodedCount = totalFrames)
    (h2 : (exec ⟨totalFrames, fps, cap, w2⟩ acts2).encodedCount = totalFrames) :
    (exec ⟨totalFrames, fps, cap, w1⟩ acts1).output =
      (exec ⟨totalFrames, fps, cap, w2⟩ acts2).output := by
  have i1 := inv_exec (⟨totalFrames, fps, cap, w1⟩ : Cfg α) acts1
  have i2 := inv_exec (⟨totalFrames, fps, cap, w2⟩ : Cfg α) acts2
  rw [i1.outOk, i2.outOk, ← i1.encOk, ← i2.encOk, h1, h2]
  rfl

/-- Single-worker completing schedule for a 6-frame job. -/
def c6sched1 : List Act :=
  List.replicate 40 (Act.worker 0) ++ List.replicate 10 Act.main

/-- Two-worker completing schedule for the same 6-frame job. -/
def c6sched2 : List Act :=
  (List.replicate 15 [Act.worker 0, Act.worker 1]).flatten ++
    List.replicate 10 Act.main

set_option maxRecDepth 4000 in
/-- C6 witness: a 6-frame job run with one worker and with two workers,
both to completion; the outputs coincide. -/
theorem c6_worker_count_equivalence_witness :
    ((exec ⟨6, 30, fun _ => (), 1⟩ c6sched1).encodedCount = 6 ∧
      (exec ⟨6, 30, fun _ => (), 2⟩ c6sched2).encodedCount = 6) ∧
    (exec ⟨6, 30, fun _ => (), 1⟩ c6sched1).output =
      (exec ⟨6, 30, fun _ => (), 2⟩ c6sched2).output :=
  ⟨⟨by decide, by decide⟩,
    c6_worker_count_equivalence 6 30 (fun _ => ()) 1 2 c6sched1 c6sched2
      (by decide) (by decide)⟩

end VueSeq
